import Mathlib

/-!
Verification development for the MANDYOC/MD3D output-reading layer of the
`modelling_earth` repository.

Python floats are modeled as rationals (`ℚ`): every literal appearing in the
source (`1e-200`, `1e-6`, …) is translated to its exact decimal value.  Text
files are modeled at the token level: a file is a list of lines, a line a list
of tokens, and a token is either a numeric token (carrying its value) or a
non-numeric word (carrying its text).  Exceptions raised by the Python code
are modeled by `Except` with an error type naming the Python exception.
-/

namespace ModellingEarth

/-- A whitespace-separated token of a text file: either a token that parses as
a float (modeled by its exact rational value) or any other word (modeled by
its text). -/
inductive Tok where
  | num (q : ℚ)
  | word (s : String)
deriving DecidableEq, Repr

/-- One line of a text file, as its list of whitespace-separated tokens. -/
abbrev Line := List Tok

/-- A text file, as its list of lines. -/
abbrev TextFile := List Line

deriving instance DecidableEq for Except

/-- Python exceptions raised by the readers. -/
inductive Err where
  | keyError
  | typeError
  | valueError
  | attributeError
  | indexError
  | assertionError
  | missingFile (n : Nat)
  | inconsistentRankCount (nranks step : Nat)
deriving DecidableEq, Repr

/-- Whether a token is cut away by `numpy.loadtxt`'s comment handling for
comment marker `c`: `loadtxt` truncates a line at the first occurrence of the
marker character, which at token granularity drops every token from the first
one starting with the marker onwards. -/
def isCommentTok (c : Char) : Tok → Bool
  | .word s => s.data.head? == some c
  | .num _ => false

/-- Truncate a line at the comment marker `c`, as `numpy.loadtxt` does. -/
def stripComment (c : Char) (l : Line) : Line :=
  l.takeWhile (fun t => !isCommentTok c t)

/-- Convert a token to a float, as Python `float(tok)` / `loadtxt` parsing: a
numeric token yields its value, any other word raises `ValueError`. -/
def tokNum : Tok → Except Err ℚ
  | .num q => .ok q
  | .word _ => .error .valueError

/-- Convert a token to an integer, as Python `int(tok)`: only an integral
numeric literal succeeds, anything else raises `ValueError`. -/
def tokInt : Tok → Except Err ℤ
  | .num q => if q.den = 1 then .ok q.num else .error .valueError
  | .word _ => .error .valueError

/-- Parse one data line of `numpy.loadtxt`: every remaining token must be a
float. -/
def parseRow (l : Line) : Except Err (List ℚ) :=
  l.mapM tokNum

/-- Model of `numpy.loadtxt(file, comments=c, skiprows=skip)` at row level:
drop the first `skip` lines, truncate each remaining line at the comment
marker, drop lines that became empty, and parse every surviving token as a
float. -/
def loadtxtRows (c : Char) (skip : Nat) (f : TextFile) : Except Err (List (List ℚ)) :=
  (((f.drop skip).map (stripComment c)).filter (fun l => !l.isEmpty)).mapM parseRow

/-- Model of the flat value sequence produced by `numpy.loadtxt` on a field
file, in file reading order (row major).  For the single-column MANDYOC dumps
this is exactly the 1-D array `loadtxt` returns; for a multi-column file it is
the order in which `unpack=True` followed by a Fortran-order reshape consumes
the values. -/
def loadtxtFlat (c : Char) (skip : Nat) (f : TextFile) : Except Err (List ℚ) :=
  (loadtxtRows c skip f).map List.flatten

/-- The noise floor `1e-200` of the flush-to-zero filter, as an exact
rational. -/
def noiseFloor : ℚ := 1 / 10 ^ 200

/-- Model of `data[np.abs(data) < 1.0e-200] = 0` applied to one value. -/
def flushSmall (q : ℚ) : ℚ :=
  if |q| < noiseFloor then 0 else q

/-- Model of `v.reshape((nx, nz), order="F")`: entry `(i, k)` of the result is
flat element `i + nx * k` (first axis varying fastest).  The caller checks
that the flat length is exactly `nx * nz`, as `numpy.reshape` does. -/
def reshapeF2 (nx nz : Nat) (v : List ℚ) : List (List ℚ) :=
  (List.range nx).map fun i => (List.range nz).map fun k => v.getD (i + nx * k) 0

/-- Model of `v.reshape((nx, ny, nz), order="F")`: entry `(i, j, k)` is flat
element `i + nx * j + nx * ny * k`. -/
def reshapeF3 (nx ny nz : Nat) (v : List ℚ) : List (List (List ℚ)) :=
  (List.range nx).map fun i =>
    (List.range ny).map fun j =>
      (List.range nz).map fun k => v.getD (i + nx * j + nx * ny * k) 0

/-- Model of `numpy.linspace(a, b, n)`: `n` evenly spaced points from `a` to
`b`, endpoints included exactly (in `ℚ` the endpoint formula is exact; for
`n = 1` the division by zero in `ℚ` yields `a`, matching `numpy`). -/
def linspace (a b : ℚ) (n : Nat) : List ℚ :=
  (List.range n).map fun i : Nat => a + (i : ℚ) * (b - a) / ((n : ℚ) - 1)

/-- Model of `(c[1:] + c[:-1]) / 2`: the midpoints of consecutive entries of
`c`, one element shorter than `c`. -/
def centers (c : List ℚ) : List ℚ :=
  (c.tail.zip c.dropLast).map fun p => (p.1 + p.2) / 2

/-! ### Parameter files

`modelling_earth/io/utils.py::_read_parameters` and
`modelling_earth/io.py::_read_parameters` parse the fixed-format parameter
file into a Python dict.  The dict is modeled as an association list with
most-recent binding first (`dictSet` prepends, `lookupParam` returns the first
hit, reproducing overwrite semantics). -/

/-- A value stored in the parameters dict. `pRaw` keeps the raw token of a
`key value` line whose key gets no numeric coercion, exactly as the Python
code stores the unconverted string. -/
inductive PVal where
  | pShape (l : List ℤ)
  | pInt (n : ℤ)
  | pFloat (q : ℚ)
  | pStr (s : String)
  | pRaw (t : Tok)
deriving DecidableEq, Repr

/-- The parameters dict. -/
abbrev Params := List (String × PVal)

/-- Dict assignment `d[k] = v`. -/
def dictSet (d : Params) (k : String) (v : PVal) : Params := (k, v) :: d

/-- Dict lookup `d[k]`, `none` meaning `KeyError`. -/
def lookupParam (d : Params) (k : String) : Option PVal :=
  (d.find? (fun p => p.1 = k)).map (·.2)

/-- The key of a `key value` parameter line.  Parameter keys are identifiers,
hence word tokens; a numeric-looking key (which Python would accept as its
literal text) is not modeled and rejected. -/
def tokKey : Tok → Except Err String
  | .word s => .ok s
  | .num _ => .error .valueError

/-- Coercion applied by `_read_parameters` to the value of a `key value`
line: `print_step` and `stepMAX` via `int`, `timeMAX` via `float`, everything
else stored raw. -/
def coerceParam (key : String) (v : Tok) : Except Err PVal :=
  if key = "print_step" ∨ key = "stepMAX" then do
    let n ← tokInt v
    .ok (.pInt n)
  else if key = "timeMAX" then do
    let q ← tokNum v
    .ok (.pFloat q)
  else .ok (.pRaw v)

/-- State of the line loop of `_read_parameters`: the dict built so far plus
the flags/locals `read_shape` (`shape`) and `read_max_coords`
(`maxCoords`). -/
structure PPState where
  params : Params
  shape : Option (List ℤ)
  maxCoords : Option (List ℚ)

/-- The line loop of `io/utils.py::_read_parameters`: skip blank lines, parse
the first non-blank line as the integer shape, the second as the float
maximum coordinates (asserting its length equals the dimension), and every
further non-blank line as a `key value` pair (exactly two tokens, else the
tuple unpacking raises `ValueError`). -/
def ppLines : TextFile → PPState → Except Err PPState
  | [], st => .ok st
  | l :: rest, st =>
    if l.isEmpty then ppLines rest st
    else
      match st.shape with
      | none => do
          let sh ← l.mapM tokInt
          ppLines rest { st with shape := some sh }
      | some sh =>
        match st.maxCoords with
        | none => do
            let mc ← l.mapM tokNum
            if mc.length = sh.length then ppLines rest { st with maxCoords := some mc }
            else .error .assertionError
        | some _ =>
          match l with
          | [k, v] => do
              let key ← tokKey k
              let pv ← coerceParam key v
              ppLines rest { st with params := dictSet st.params key pv }
          | _ => .error .valueError

/-- Model of `io/utils.py::_read_parameters`: run the line loop, then append
`dimension`, the per-axis extremes (`x_length`, optionally `y_length`,
`z_depth = -depth`) and the fixed unit annotations.  A file that never
provided the shape or max-coordinates lines leaves the corresponding Python
locals unbound (`NameError`, modeled as an error); a dimension other than 2
or 3 raises `ValueError`. -/
def readParametersUtils (f : TextFile) : Except Err Params := do
  let st ← ppLines f { params := [], shape := none, maxCoords := none }
  match st.shape, st.maxCoords with
  | some sh, some mc => do
      let dimension := sh.length
      -- `parameters["shape"]` is assigned first of all in the source, hence it
      -- is the oldest binding of the dict (appended at the tail of the
      -- most-recent-first association list).
      let ps := st.params ++ [("shape", PVal.pShape sh)]
      let ps := dictSet ps "dimension" (.pInt dimension)
      let ps ←
        if dimension = 2 then
          match mc with
          | [xMax, depth] =>
              .ok (dictSet (dictSet ps "x_length" (.pFloat xMax)) "z_depth" (.pFloat (-depth)))
          | _ => .error .valueError
        else if dimension = 3 then
          match mc with
          | [xMax, yMax, depth] =>
              .ok (dictSet (dictSet (dictSet ps "x_length" (.pFloat xMax))
                    "y_length" (.pFloat yMax)) "z_depth" (.pFloat (-depth)))
          | _ => .error .valueError
        else .error .valueError
      let ps := dictSet ps "coords_units" (.pStr "m")
      let ps := dictSet ps "times_units" (.pStr "Ma")
      let ps := dictSet ps "temperature_units" (.pStr "C")
      let ps := dictSet ps "density_units" (.pStr "kg/m^3")
      let ps := dictSet ps "heat_units" (.pStr "W/m^3")
      let ps := dictSet ps "viscosity_factor_units" (.pStr "dimensionless")
      let ps := dictSet ps "viscosity_units" (.pStr "Pa s")
      let ps := dictSet ps "strain_rate_units" (.pStr "s^(-1)")
      .ok ps
  | _, _ => .error .valueError

/-- Model of `io.py::_read_parameters` (the MD3D variant): the first non-blank
line must unpack into exactly three integers `nx, ny, nz`, the second into
exactly three floats `x_max, y_max, z_max`; further lines are `key value`
pairs with the same coercions; the fixed unit annotations are appended. -/
def readParametersMd3d (f : TextFile) : Except Err Params := do
  let st ← ppLines f { params := [], shape := none, maxCoords := none }
  match st.shape, st.maxCoords with
  | some [nx, ny, nz], some [xMax, yMax, zMax] => do
      -- `nx, ny, nz` and `x_max, y_max, z_max` are assigned first of all in
      -- the source, hence they are the oldest bindings of the dict.
      let ps := st.params ++
        [("z_max", PVal.pFloat zMax), ("y_max", PVal.pFloat yMax),
         ("x_max", PVal.pFloat xMax),
         ("nz", PVal.pInt nz), ("ny", PVal.pInt ny), ("nx", PVal.pInt nx)]
      let ps := dictSet ps "coords_units" (.pStr "m")
      let ps := dictSet ps "times_units" (.pStr "Ma")
      let ps := dictSet ps "temperature_units" (.pStr "C")
      let ps := dictSet ps "density_units" (.pStr "kg/m^3")
      let ps := dictSet ps "heat_units" (.pStr "W/m^3")
      let ps := dictSet ps "viscosity_factor_units" (.pStr "dimensionless")
      let ps := dictSet ps "viscosity_units" (.pStr "Pa s")
      let ps := dictSet ps "strain_rate_units" (.pStr "s^(-1)")
      .ok ps
  | _, _ => .error .valueError

/-- Read an int-valued parameter used as a loop bound (`print_step`,
`stepMAX`): a missing key raises `KeyError`, a non-int value makes the later
`range(...)` call raise `TypeError`.  A negative value (which would make the
Python `range` empty) is outside the modeled scope and rejected. -/
def getNatParam (ps : Params) (k : String) : Except Err Nat :=
  match lookupParam ps k with
  | none => .error .keyError
  | some (.pInt n) => if 0 ≤ n then .ok n.toNat else .error .valueError
  | some _ => .error .typeError

/-! ### Time-marker files and the two `_read_times` resolvers

One physical marker file is consulted through two incompatible splitting
regimes: `io.py::_read_times` whitespace-splits the first line, while
`io/utils.py::_read_times` lets `numpy.loadtxt` split every line at `:`.  A
`MarkerFile` therefore carries both derived token views of the same text. -/

/-- A time-marker file (`Tempo_{step}.txt`): `ws` is the whitespace-token view
of its lines, `colon` the colon-field view of the same lines (each field as a
token: numeric or not).  Both fields describe one underlying text. -/
structure MarkerFile where
  ws : TextFile
  colon : TextFile
deriving DecidableEq, Repr

/-- Model of the marker parsing of `io.py::_read_times`:
`float(f.readline().split()[1])` — the second whitespace token of the first
line.  Missing line or token raises `IndexError`, a non-numeric token raises
`ValueError`. -/
def parseTimeA (ws : TextFile) : Except Err ℚ :=
  match ws with
  | [] => .error .indexError
  | l :: _ =>
    match l.get? 1 with
    | none => .error .indexError
    | some t => tokNum t

/-- Model of the marker parsing of `io/utils.py::_read_times`:
`np.loadtxt(filename, unpack=True, delimiter=":", usecols=(1))` followed by
the 0-d/1-d dispatch of the source.  Each non-empty line must have a numeric
second colon-field; `loadtxt` squeezes a single row to a 0-d array, on which
the source calls `time.append(time)` — an `AttributeError` (ndarrays have no
`append`); with no rows `time[0]` raises `IndexError`; with at least two rows
the source keeps `time[0]`, the first row's value. -/
def parseTimeB (colon : TextFile) : Except Err ℚ := do
  let rows := (colon.map (stripComment '#')).filter (fun l => !l.isEmpty)
  let vs ← rows.mapM (fun l =>
    match l.get? 1 with
    | none => .error Err.valueError
    | some t => tokNum t)
  match vs with
  | [] => .error .indexError
  | [_] => .error .attributeError
  | v :: _ :: _ => .ok v

/-- The candidate steps `range(0, max_steps + print_step, print_step)` of the
`_read_times` loop: the multiples of `p` below `M + p`, of which there are
`⌈(M + p) / p⌉ = (M + 2p - 1) / p`. -/
def candidateSteps (p M : Nat) : List Nat :=
  (List.range ((M + 2 * p - 1) / p)).map (· * p)

/-- The body of the `_read_times` loop, generic in the per-file parser: for
each candidate step in order, stop silently at the first missing marker file,
parse each present file (propagating its error) and collect the pairs. -/
def readTimesLoop (parse : MarkerFile → Except Err ℚ) (markers : Nat → Option MarkerFile) :
    List Nat → Except Err (List Nat × List ℚ)
  | [] => .ok ([], [])
  | c :: rest =>
    match markers c with
    | none => .ok ([], [])
    | some f => do
        let t ← parse f
        let (ss, ts) ← readTimesLoop parse markers rest
        .ok (c :: ss, t :: ts)

/-- The common shape of both `_read_times` functions: iterate the candidate
steps, then scale the collected times by `1e-6` into Ma.  A zero `print_step`
makes the Python `range` raise `ValueError`. -/
def readTimesWith (parse : MarkerFile → Except Err ℚ) (markers : Nat → Option MarkerFile)
    (p M : Nat) : Except Err (List Nat × List ℚ) := do
  if p = 0 then .error .valueError
  else
    let (ss, ts) ← readTimesLoop parse markers (candidateSteps p M)
    .ok (ss, ts.map (fun t => (1 / 10 ^ 6 : ℚ) * t))

/-- Model of `io.py::_read_times` (whitespace layout). -/
def readTimesA (markers : Nat → Option MarkerFile) (p M : Nat) :
    Except Err (List Nat × List ℚ) :=
  readTimesWith (fun f => parseTimeA f.ws) markers p M

/-- Model of `io/utils.py::_read_times` (colon layout). -/
def readTimesB (markers : Nat → Option MarkerFile) (p M : Nat) :
    Except Err (List Nat × List ℚ) :=
  readTimesWith (fun f => parseTimeB f.colon) markers p M

/-! ### The `read_mandyoc_data` assembler (`io/grids.py`)

`read_mandyoc_data` parses the parameter file, reads `parameters["shape"]`
and then calls `_build_coordinates(region=parameters["region"], shape=shape)`.
`_read_parameters` never stores a `"region"` entry (it stores `x_length` /
`z_depth`), so the lookup raises `KeyError` unless the parameter file itself
contains a `region value` line, in which case the stored value is the raw
token of that line and `_build_coordinates` fails to unpack it into four or
six floats (`TypeError`/`ValueError`).  Every statement of the source after
this call (times, scalar/velocity/viscosity reads, dataset assembly) is
unreachable for every input, so the model ends at this point and the
remaining directory contents are never consulted. -/

/-- Placeholder for the `xarray.Dataset` the source promises to return; no
value of it is ever produced. -/
inductive MandyocDataset where
  | mk
deriving DecidableEq, Repr

/-- Model of `io/grids.py::read_mandyoc_data` (see the section comment: the
function can never get past the `parameters["region"]` lookup). -/
def readMandyocData (paramFile : TextFile) : Except Err MandyocDataset := do
  let parameters ← readParametersUtils paramFile
  match lookupParam parameters "shape" with
  | none => .error .keyError
  | some _ =>
    match lookupParam parameters "region" with
    | none => .error .keyError
    | some _ =>
      -- a `region` value can only be the raw token of a `region value`
      -- parameter line, which `_build_coordinates` cannot unpack
      .error .typeError

/-! ### Scalar and velocity field readers (`io/grids.py`) -/

/-- The `loadtxt`/flush/reshape pipeline of the per-step body of
`_read_scalars`, with the `skiprows` argument explicit (the source fixes it
to 2): load the flat values with comment marker `P`, flush values below the
noise floor to zero, then reshape column-major into `(nx, nz)` (a length
mismatch makes `numpy.reshape` raise `ValueError`). -/
def scalarPipeline (skip nx nz : Nat) (f : TextFile) : Except Err (List (List ℚ)) := do
  let flat ← loadtxtFlat 'P' skip f
  let flat := flat.map flushSmall
  if flat.length = nx * nz then .ok (reshapeF2 nx nz flat) else .error .valueError

/-- Model of the per-step body of `io/grids.py::_read_scalars` for a 2-D grid:
`np.loadtxt(file, unpack=True, comments="P", skiprows=2)`, flush of values
below `1e-200`, then `reshape(shape, order="F")`. -/
def readScalarsStep (nx nz : Nat) (f : TextFile) : Except Err (List (List ℚ)) :=
  scalarPipeline 2 nx nz f

/-- Model of `io/grids.py::_read_scalars` over the resolved steps: each step
reads the file `{basename}_{step}.txt` (modeled by the map `sfile`; a missing
file is a fatal error) and the per-step grids are stacked in step order. -/
def readScalars (sfile : Nat → Option TextFile) (nx nz : Nat) (steps : List Nat) :
    Except Err (List (List (List ℚ))) :=
  steps.mapM fun step =>
    match sfile step with
    | none => .error (.missingFile step)
    | some f => readScalarsStep nx nz f

/-- Every `d`-th element of a list, starting at its head: the model of the
numpy slice `l[:: d]`. -/
def strided (d : Nat) : List ℚ → List ℚ
  | [] => []
  | x :: xs => x :: strided d (xs.drop (d - 1))
termination_by l => l.length
decreasing_by
  simp only [List.length_drop, List.length_cons]
  omega

/-- Model of the numpy slice `l[c :: d]`. -/
def sliceStride (c d : Nat) (l : List ℚ) : List ℚ :=
  strided d (l.drop c)

/-- Model of the per-step body of `io/grids.py::_read_velocity` for 2-D data
(`dimension = 2`): load the flat interleaved dump with comment marker `P` and
`skiprows=2`, flush values below `1e-200`, then demultiplex the two
components by the strided slices `velocity[0::2]` and `velocity[1::2]`, each
reshaped column-major into `(nx, nz)`. -/
def readVelocityStep2 (nx nz : Nat) (f : TextFile) :
    Except Err (List (List ℚ) × List (List ℚ)) := do
  let flat ← loadtxtFlat 'P' 2 f
  let flat := flat.map flushSmall
  let sx := sliceStride 0 2 flat
  let sz := sliceStride 1 2 flat
  if sx.length = nx * nz ∧ sz.length = nx * nz then
    .ok (reshapeF2 nx nz sx, reshapeF2 nx nz sz)
  else .error .valueError

/-- Model of the per-step body of `io/grids.py::_read_velocity` for 3-D data
(`dimension = 3`): the three components are the slices `velocity[0::3]`,
`velocity[1::3]` and `velocity[2::3]`, each reshaped column-major into
`(nx, ny, nz)`. -/
def readVelocityStep3 (nx ny nz : Nat) (f : TextFile) :
    Except Err (List (List (List ℚ)) × List (List (List ℚ)) × List (List (List ℚ))) := do
  let flat ← loadtxtFlat 'P' 2 f
  let flat := flat.map flushSmall
  let sx := sliceStride 0 3 flat
  let sy := sliceStride 1 3 flat
  let sz := sliceStride 2 3 flat
  if sx.length = nx * ny * nz ∧ sy.length = nx * ny * nz ∧ sz.length = nx * ny * nz then
    .ok (reshapeF3 nx ny nz sx, reshapeF3 nx ny nz sy, reshapeF3 nx ny nz sz)
  else .error .valueError

/-! ### The temperature serializer (`io/temperature.py`) -/

/-- Model of `np.ravel(order="F")` on a 2-D array of shape `(nx, nz)` stored
as a list of `nx` rows of length `nz`: the values in column-major order, the
first index varying fastest. -/
def ravelF2 (nx nz : Nat) (T : List (List ℚ)) : List ℚ :=
  ((List.range nz).map fun k => (List.range nx).map fun i => (T.getD i []).getD k 0).flatten

/-- Model of `io/temperature.py::save_temperature` on a 2-D temperature array
whose dims are already `("x", "z")`: the written file is the four-line header
produced by `np.savetxt` from `HEADER = "T1 \n T2 \n T3 \n T4"` (each header
line prefixed with the default comment marker `#`), followed by one line per
value of the column-major ravel of the array. -/
def saveTemperatureFile (nx nz : Nat) (T : List (List ℚ)) : TextFile :=
  [[Tok.word "#", Tok.word "T1"], [Tok.word "#", Tok.word "T2"],
   [Tok.word "#", Tok.word "T3"], [Tok.word "#", Tok.word "T4"]] ++
    (ravelF2 nx nz T).map (fun v => [Tok.num v])

/-! ### The viscosity reader (`io/grids.py::_read_viscosity`, 2-D branch)

The per-step rank-file count obtained by filtering the directory listing for
the prefix `visc_{step}_` is modeled by the map `counts`; the parsed rows
`(i, k, visc)` of the file `visc_{step}_{rank}.txt` by the map `content`
(`none` meaning the file is absent, which makes `loadtxt` raise). -/

/-- One row of a 2-D viscosity rank file: the integer cell indices (the float
columns after `astype(int)`) and the value. -/
structure VRow2 where
  i : Nat
  k : Nat
  visc : ℚ
deriving DecidableEq, Repr

/-- A dense 2-D cell-centered grid, as its assignment of a value to each pair
of indices. -/
abbrev Grid2 := Nat → Nat → ℚ

/-- One scatter write `viscosity[i, k] = visc`. -/
def writeRow2 (g : Grid2) (r : VRow2) : Grid2 :=
  fun a b => if a = r.i ∧ b = r.k then r.visc else g a b

/-- The vectorized scatter assignment `viscosity[step, i, k] = visc` of one
rank file: the rows are written in order (with duplicate indices the last
occurrence wins, as in numpy fancy assignment), and an index outside the cell
grid makes numpy raise `IndexError`. -/
def writeRows2 (nxc nzc : Nat) (g : Grid2) : List VRow2 → Except Err Grid2
  | [] => .ok g
  | r :: rest =>
    if r.i < nxc ∧ r.k < nzc then writeRows2 nxc nzc (writeRow2 g r) rest
    else .error .indexError

/-- The inner rank loop of `_read_viscosity` for one step: read the rank
files `0, …, n_rank - 1` in order and scatter each into the grid. -/
def readViscosityStepFiles (nxc nzc : Nat) (content : Nat → Option (List VRow2))
    (nrank : Nat) (g : Grid2) : Except Err Grid2 :=
  (List.range nrank).foldlM (fun g r =>
    match content r with
    | none => .error (Err.missingFile r)
    | some rows => writeRows2 nxc nzc g rows) g

/-- The viscosity part of an output directory. -/
structure ViscDir where
  counts : Nat → Nat
  content : Nat → Nat → Option (List VRow2)

/-- The step loop of `_read_viscosity` after the first step: the rank-file
count of every further step is compared with the count fixed at step 0 and a
mismatch raises the `Invalid number of ranks` `ValueError` before any of that
step's files is read. -/
def readViscosityRest (d : ViscDir) (nxc nzc nrank : Nat) :
    List Nat → Except Err (List Grid2)
  | [] => .ok []
  | s :: rest =>
    if d.counts s = nrank then do
      let g ← readViscosityStepFiles nxc nzc (d.content s) nrank (fun _ _ => 0)
      let gs ← readViscosityRest d nxc nzc nrank rest
      .ok (g :: gs)
    else .error (.inconsistentRankCount (d.counts s) s)

/-- Model of `io/grids.py::_read_viscosity` for a 2-D node grid of shape
`(nx, nz)`: the cell grid has shape `(nx - 1, nz - 1)`, the whole array
starts zero-filled, the rank-file count of step 0 fixes `n_rank`, and each
step's slice is filled by its rank files in order. -/
def readViscosity (d : ViscDir) (steps : List Nat) (nx nz : Nat) :
    Except Err (List Grid2) :=
  match steps with
  | [] => .ok []
  | s0 :: rest => do
      let nrank := d.counts s0
      let g0 ← readViscosityStepFiles (nx - 1) (nz - 1) (d.content s0) nrank (fun _ _ => 0)
      let gs ← readViscosityRest d (nx - 1) (nz - 1) nrank rest
      .ok (g0 :: gs)

/-- The value paired with cell `(a, b)` in the last row mentioning `(a, b)`
of a row list, if any (specification-side description of last-write-wins). -/
def lastMention (rows : List VRow2) (a b : Nat) : Option ℚ :=
  match rows with
  | [] => none
  | r :: rest =>
    match lastMention rest a b with
    | some v => some v
    | none => if a = r.i ∧ b = r.k then some r.visc else none

/-- All rows of one step, in file-then-row read order. -/
def stepRows (content : Nat → Option (List VRow2)) (nrank : Nat) : List VRow2 :=
  ((List.range nrank).map (fun r => (content r).getD [])).flatten

/-! ### The swarm reader (`io.py::read_md3d_swarm`)

The per-step rank-file count obtained by filtering the directory listing for
`step_{step}-` is modeled by the map `scount`; the first four columns
`x, y, z, cc0` of `step_{step}-rank{rank}.txt` (further columns are ignored
by `usecols=(0, 1, 2, 3)`) by the map `content`. -/

/-- The four columns of one particle row of a swarm rank file. -/
structure SwarmRec where
  x : ℚ
  y : ℚ
  z : ℚ
  cc0 : ℚ
deriving DecidableEq, Repr

/-- One row of the assembled long-format swarm table: position columns, the
attached constant `time` column and the step number used as the row's
dataframe index. -/
structure SwarmRow where
  x : ℚ
  y : ℚ
  z : ℚ
  cc0 : ℚ
  time : ℚ
  step : Nat
deriving DecidableEq, Repr

/-- Model of `io.py::_read_md3d_single_swarm`: concatenate the rank files
`0, …, n_rank - 1` in order (`np.hstack`), attach the step's time as a
constant column and index every row by the step number. -/
def readSingleSwarm (content : Nat → Option (List SwarmRec)) (step : Nat) (t : ℚ)
    (nrank : Nat) : Except Err (List SwarmRow) := do
  let parts ← (List.range nrank).mapM (fun r =>
    match content r with
    | none => .error (Err.missingFile r)
    | some rows => .ok rows)
  .ok (parts.flatten.map fun p =>
    { x := p.x, y := p.y, z := p.z, cc0 := p.cc0, time := t, step := step })

/-- The parts of an output directory consulted by `read_md3d_swarm`. -/
structure SwarmDir where
  paramFile : TextFile
  markers : Nat → Option MarkerFile
  scount : Nat → Nat
  content : Nat → Nat → Option (List SwarmRec)

/-- The step loop of `read_md3d_swarm` after the first step: the rank-file
count of every further step is compared with the count fixed at step 0 and a
mismatch raises the `Invalid number of ranks` `ValueError` before that step's
particles are read. -/
def readMd3dSwarmRest (d : SwarmDir) (nrank : Nat) :
    List (Nat × ℚ) → Except Err (List (List SwarmRow))
  | [] => .ok []
  | (s, t) :: rest =>
    if d.scount s = nrank then do
      let tbl ← readSingleSwarm (d.content s) s t nrank
      let tbls ← readMd3dSwarmRest d nrank rest
      .ok (tbl :: tbls)
    else .error (.inconsistentRankCount (d.scount s) s)

/-- Model of `io.py::read_md3d_swarm`: resolve `print_step` and `stepMAX`
from the parameter file, resolve the step/time index with the whitespace
layout `_read_times`, fix `n_rank` at the first resolved step, read each
step's particles and concatenate all per-step frames (`pd.concat` of an
empty list raises `ValueError`). -/
def readMd3dSwarm (d : SwarmDir) : Except Err (List SwarmRow) := do
  let parameters ← readParametersMd3d d.paramFile
  let p ← getNatParam parameters "print_step"
  let M ← getNatParam parameters "stepMAX"
  let (steps, times) ← readTimesA d.markers p M
  match steps.zip times with
  | [] => .error .valueError
  | (s0, t0) :: rest => do
      let nrank := d.scount s0
      let tbl0 ← readSingleSwarm (d.content s0) s0 t0 nrank
      let tbls ← readMd3dSwarmRest d nrank rest
      .ok ((tbl0 :: tbls).flatten)

/-! ### Coordinate builders -/

/-- Model of `io.py::_build_coordinates`: from the maximum coordinates and the
shape, `x = linspace(0, x_max, nx)`, `y = linspace(-y_max, 0, ny)`,
`z = linspace(-z_max, 0, nz)` (the y and z axes are sign-flipped to keep a
right-handed system with depth negative). -/
def buildCoordinatesMd3d (xMax yMax zMax : ℚ) (nx ny nz : Nat) :
    List ℚ × List ℚ × List ℚ :=
  (linspace 0 xMax nx, linspace (-yMax) 0 ny, linspace (-zMax) 0 nz)

/-- Model of `io/grids.py::_build_coordinates`: from an explicit region
`(x_min, x_max[, y_min, y_max], z_min, z_max)` and the shape, one `linspace`
per axis.  A region whose length does not match the unpacking raises
`ValueError`; a dimension other than 2 or 3 falls through the `if/elif`
returning `None`, which the caller cannot unpack (`TypeError`). -/
def buildCoordinatesGrids (region : List ℚ) (shape : List Nat) :
    Except Err (List (List ℚ)) :=
  match shape with
  | [nx, nz] =>
    match region with
    | [x0, x1, z0, z1] => .ok [linspace x0 x1 nx, linspace z0 z1 nz]
    | _ => .error .valueError
  | [nx, ny, nz] =>
    match region with
    | [x0, x1, y0, y1, z0, z1] =>
        .ok [linspace x0 x1 nx, linspace y0 y1 ny, linspace z0 z1 nz]
    | _ => .error .valueError
  | _ => .error .typeError

/-! ### Concrete example inputs -/

/-- A layout (a) marker file: the time is the second whitespace token of the
first line (`0 1000000.0`); splitting the same line at `:` yields a single
non-numeric field. -/
def markerLayoutA : MarkerFile :=
  { ws := [[Tok.num 0, Tok.num 1000000]], colon := [[Tok.word "0 1000000.0"]] }

/-- A second layout (a) marker file, carrying time `2000000.0`. -/
def markerLayoutA2 : MarkerFile :=
  { ws := [[Tok.num 0, Tok.num 2000000]], colon := [[Tok.word "0 2000000.0"]] }

/-- A layout (b) marker file: the single line `time:1000000.0`.  Whitespace
splitting yields one non-numeric token; colon splitting yields the label and
the numeric value. -/
def markerLayoutB : MarkerFile :=
  { ws := [[Tok.word "time:1000000.0"]],
    colon := [[Tok.word "time", Tok.num 1000000]] }

/-- A colon-delimited marker file with two rows (`time:1000000.0` and
`step:0`), the only colon layout `io/utils.py::_read_times` gets through. -/
def markerColonTwoRows : MarkerFile :=
  { ws := [[Tok.word "time:1000000.0"], [Tok.word "step:0"]],
    colon := [[Tok.word "time", Tok.num 1000000], [Tok.word "step", Tok.num 0]] }

/-- A corrupt marker file: parsing it raises in either layout. -/
def markerCorrupt : MarkerFile :=
  { ws := [[Tok.word "junk"]], colon := [[Tok.word "junk"]] }

/-- Example marker directory: markers present for steps 0 and 10, absent for
step 20, corrupt at step 30 — reading it shows that files past the first gap
are not consulted. -/
def exMarkers : Nat → Option MarkerFile := fun s =>
  if s = 0 then some markerLayoutA
  else if s = 10 then some markerLayoutA2
  else if s = 30 then some markerCorrupt
  else none

/-- The synthetic 2-D parameter file of the end-to-end scenario: shape
`3 2`, extents `1000000.0 700000.0`, `print_step 10`, `stepMAX 10`. -/
def exParamUtils : TextFile :=
  [[Tok.num 3, Tok.num 2], [Tok.num 1000000, Tok.num 700000],
   [Tok.word "print_step", Tok.num 10], [Tok.word "stepMAX", Tok.num 10]]

/-- A synthetic 3-D MD3D parameter file (`nx ny nz`, `x_max y_max z_max`,
cadence and bound), used by the swarm examples. -/
def exParamMd3d : TextFile :=
  [[Tok.num 3, Tok.num 3, Tok.num 2],
   [Tok.num 1000000, Tok.num 1000000, Tok.num 700000],
   [Tok.word "print_step", Tok.num 10], [Tok.word "stepMAX", Tok.num 10]]

/-- Swarm directory with a consistent rank count: 2 rank files at steps 0 and
10, rank 0 holding 3 particles and rank 1 holding 2. -/
def exSwarmDir : SwarmDir :=
  { paramFile := exParamMd3d,
    markers := fun s => if s = 0 then some markerLayoutA
      else if s = 10 then some markerLayoutA2 else none,
    scount := fun _ => 2,
    content := fun s r =>
      if r = 0 then some [⟨1, 1, 1, 0⟩, ⟨2, 2, 2, 0⟩, ⟨3, 3, 3, (s : ℚ)⟩]
      else if r = 1 then some [⟨4, 4, 4, 1⟩, ⟨5, 5, 5, 1⟩] else none }

/-- The same swarm directory with 3 rank files listed at step 10. -/
def exSwarmDirBad : SwarmDir :=
  { exSwarmDir with scount := fun s => if s = 10 then 3 else 2 }

/-- Viscosity directory: 2 rank files per step, with cell `(0, 0)` mentioned
three times (twice by rank 0, once by rank 1) and cell `(1, 0)` once. -/
def exViscDir : ViscDir :=
  { counts := fun _ => 2,
    content := fun _ r =>
      if r = 0 then some [⟨0, 0, 1⟩, ⟨1, 0, 7⟩, ⟨0, 0, 3⟩]
      else if r = 1 then some [⟨0, 0, 5⟩] else none }

/-- The same viscosity directory with 3 rank files listed at step 10. -/
def exViscDirBad : ViscDir :=
  { exViscDir with counts := fun s => if s = 10 then 3 else 2 }

/-- A scalar field file: two header lines, one comment line starting with the
marker `P`, then the values `5, 0, 3, 7` one per line. -/
def exScalarFile : TextFile :=
  [[Tok.word "h1"], [Tok.word "h2"], [Tok.word "P0"],
   [Tok.num 5], [Tok.num 0], [Tok.num 3], [Tok.num 7]]

/-- A velocity file with 4 interleaved values (2-D, `nx = 2, nz = 1`). -/
def exVelFile4 : TextFile :=
  [[Tok.word "h1"], [Tok.word "h2"],
   [Tok.num 1], [Tok.num 2], [Tok.num 3], [Tok.num 4]]

/-- A velocity file with 6 interleaved values (3-D,
`nx = 1, ny = 1, nz = 2`). -/
def exVelFile6 : TextFile :=
  [[Tok.word "h1"], [Tok.word "h2"],
   [Tok.num 1], [Tok.num 2], [Tok.num 3], [Tok.num 4], [Tok.num 5], [Tok.num 6]]

/-! ### Helper lemmas -/

/-- Reduction of `Except` bind on a success value. -/
@[simp] theorem ok_bind {α β : Type} (x : α) (f : α → Except Err β) :
    (Except.ok x >>= f) = f x := rfl

/-- Reduction of `Except` bind on an error. -/
@[simp] theorem error_bind {α β : Type} (e : Err) (f : α → Except Err β) :
    ((Except.error e : Except Err α) >>= f) = Except.error e := rfl

/-- Reduction of `Except.map` on a success value. -/
@[simp] theorem map_ok {α β : Type} (x : α) (f : α → β) :
    (Except.ok x : Except Err α).map f = Except.ok (f x) := rfl

/-- Reduction of `Except.map` on an error. -/
@[simp] theorem map_error {α β : Type} (e : Err) (f : α → β) :
    (Except.error e : Except Err α).map f = Except.error e := rfl

/-! ### Claims: the time-marker layouts (C3) and the assembler (C1) -/

/-- C3: the claim states that a present time-marker file in either documented
layout — (a) the time as the second whitespace token of the first line, or
(b) a colon-delimited `label:value` line — is parsed to the same float and
scaled by `1e-6` to Ma, both layouts being accepted by the reader.  The code
contradicts this: the layout (b) file `time:1000000.0` makes
`io/utils.py::_read_times` call `append` on the 0-d array `loadtxt` returns
(an `AttributeError`, the `time.append(time)` slip), and also fails in
`io.py::_read_times` (`IndexError`: the first line has a single whitespace
token), so no resolver accepts both layouts; layout (a) is parsed and
Ma-scaled by `io.py::_read_times` only, and a colon file needs at least two
rows before `io/utils.py::_read_times` returns (the first row's value,
Ma-scaled). -/
theorem timeMarker_layout_evaluation :
    (parseTimeA markerLayoutA.ws = .ok 1000000 ∧
      readTimesA (fun s => if s = 0 then some markerLayoutA else none) 10 100 =
        .ok ([0], [1]) ∧
      readTimesB (fun s => if s = 0 then some markerLayoutA else none) 10 100 =
        .error .valueError) ∧
    (parseTimeB markerLayoutB.colon = .error .attributeError ∧
      parseTimeA markerLayoutB.ws = .error .indexError ∧
      readTimesB (fun s => if s = 0 then some markerLayoutB else none) 10 100 =
        .error .attributeError ∧
      readTimesA (fun s => if s = 0 then some markerLayoutB else none) 10 100 =
        .error .indexError) ∧
    readTimesB (fun s => if s = 0 then some markerColonTwoRows else none) 10 100 =
      .ok ([0], [1]) := by
  have hc : candidateSteps 10 100 = [0, 10, 20, 30, 40, 50, 60, 70, 80, 90, 100] := by
    decide
  refine ⟨⟨rfl, ?_, rfl⟩, ⟨rfl, rfl, rfl, rfl⟩, ?_⟩
  · simp only [readTimesA, readTimesWith, hc]
    norm_num [readTimesLoop, parseTimeA, markerLayoutA, tokNum]
  · have h1 : stripComment '#' [Tok.word "time", Tok.num 1000000] =
        [Tok.word "time", Tok.num 1000000] := by decide
    have h2 : stripComment '#' [Tok.word "step", Tok.num 0] =
        [Tok.word "step", Tok.num 0] := by decide
    simp only [readTimesB, readTimesWith, hc]
    norm_num [readTimesLoop, parseTimeB, h1, h2, List.mapM.loop, tokNum]

/-- C1: the claim states that for a consistent synthetic 2-step 2-D output
directory the assembler `read_mandyoc_data` returns a Dataset of the
documented shapes.  The code cannot: `_read_parameters` never stores a
`region` entry, so the lookup `parameters["region"]` in
`read_mandyoc_data` raises `KeyError` for every directory whose parameter
file follows the documented grammar (and a parameter file smuggling a
`region` line only moves the failure into `_build_coordinates`); in
particular the assembler never returns a dataset, and on the synthetic
scenario's parameter file it raises `KeyError`. -/
theorem readMandyocData_never_ok :
    (∀ (pf : TextFile) (ds : MandyocDataset), readMandyocData pf ≠ .ok ds) ∧
    readMandyocData exParamUtils = .error .keyError := by
  constructor
  · intro pf ds h
    unfold readMandyocData at h
    cases hp : readParametersUtils pf with
    | error e => rw [hp] at h; exact Except.noConfusion h
    | ok ps =>
      rw [hp] at h
      have h' : (match lookupParam ps "shape" with
        | none => (Except.error Err.keyError : Except Err MandyocDataset)
        | some _ =>
          match lookupParam ps "region" with
          | none => Except.error Err.keyError
          | some _ => Except.error Err.typeError) = Except.ok ds := h
      cases hs : lookupParam ps "shape" with
      | none => rw [hs] at h'; exact Except.noConfusion h'
      | some v =>
        rw [hs] at h'
        cases hr : lookupParam ps "region" with
        | none => rw [hr] at h'; exact Except.noConfusion h'
        | some w => rw [hr] at h'; exact Except.noConfusion h'
  · decide

/-! ### Claim C4: the time index stops at the first gap -/

/-- Characterization of a successful run of the `_read_times` loop: steps and
times have equal length, the steps are the initial segment of the candidate
list up to the first absent marker, every listed step's marker is present,
and if the loop stopped before exhausting the candidates then the very next
candidate's marker is absent. -/
theorem readTimesLoop_spec (parse : MarkerFile → Except Err ℚ)
    (markers : Nat → Option MarkerFile) (cands : List Nat) (ss : List Nat) (ts : List ℚ)
    (h : readTimesLoop parse markers cands = .ok (ss, ts)) :
    ss.length = ts.length ∧
    ss = cands.take ss.length ∧
    (∀ c ∈ ss, markers c ≠ none) ∧
    (∀ hlt : ss.length < cands.length, markers (cands.get ⟨ss.length, hlt⟩) = none) := by
  induction cands generalizing ss ts with
  | nil =>
    obtain ⟨rfl, rfl⟩ : ss = [] ∧ ts = [] := by
      simpa [readTimesLoop] using h.symm
    exact ⟨rfl, rfl, by simp, fun hlt => absurd hlt (by simp)⟩
  | cons c rest ih =>
    rw [readTimesLoop] at h
    cases hm : markers c with
    | none =>
      rw [hm] at h
      obtain ⟨rfl, rfl⟩ : ss = [] ∧ ts = [] := by simpa using h.symm
      exact ⟨rfl, rfl, by simp, fun hlt => by simpa using hm⟩
    | some f =>
      rw [hm] at h
      have h' : (parse f >>= fun t =>
          readTimesLoop parse markers rest >>= fun pr =>
            Except.ok (c :: pr.1, t :: pr.2)) = Except.ok (ss, ts) := h
      cases hp : parse f with
      | error e => rw [hp] at h'; exact Except.noConfusion h'
      | ok t =>
        rw [hp] at h'
        simp only [ok_bind] at h'
        cases hr : readTimesLoop parse markers rest with
        | error e => rw [hr] at h'; exact Except.noConfusion h'
        | ok pair =>
          rw [hr] at h'
          simp only [ok_bind] at h'
          have hpair := Except.ok.inj h'
          have hss : ss = c :: pair.1 := (congrArg Prod.fst hpair).symm
          have hts : ts = t :: pair.2 := (congrArg Prod.snd hpair).symm
          subst hss; subst hts
          obtain ⟨ihlen, ihtake, ihmem, ihnext⟩ := ih pair.1 pair.2 (by rw [hr])
          refine ⟨by simpa using ihlen, ?_, ?_, ?_⟩
          · simpa [List.take_succ_cons] using ihtake
          · intro x hx
            rcases List.mem_cons.mp hx with rfl | hx
            · simp [hm]
            · exact ihmem x hx
          · intro hlt
            have hlt' : pair.1.length < rest.length := by simpa using hlt
            simpa using ihnext hlt'

/-- Entries of the candidate list: candidate `i` is the step `i * p`. -/
theorem candidateSteps_getElem? (p M i : Nat) (hi : i < (candidateSteps p M).length) :
    (candidateSteps p M)[i]? = some (i * p) := by
  unfold candidateSteps at *
  simp only [List.length_map, List.length_range] at hi
  simp [List.getElem?_map, List.getElem?_range hi]

/-- The `_read_times` loop consults only the markers of the listed steps and
of the first absent candidate: any marker map agreeing there produces the
same outcome. -/
theorem readTimesLoop_agrees (parse : MarkerFile → Except Err ℚ)
    (markers markers' : Nat → Option MarkerFile) (cands : List Nat)
    (ss : List Nat) (ts : List ℚ)
    (h : readTimesLoop parse markers cands = .ok (ss, ts))
    (hag : ∀ i, i ≤ ss.length → ∀ (hi : i < cands.length),
      markers' (cands.get ⟨i, hi⟩) = markers (cands.get ⟨i, hi⟩)) :
    readTimesLoop parse markers' cands = .ok (ss, ts) := by
  induction cands generalizing ss ts with
  | nil => exact h
  | cons c rest ih =>
    rw [readTimesLoop] at h ⊢
    cases hm : markers c with
    | none =>
      rw [hm] at h
      have h0 : markers' c = none := by
        have := hag 0 (by simp) (by simp)
        simpa [hm] using this
      rw [h0]
      exact h
    | some f =>
      rw [hm] at h
      have h0 : markers' c = some f := by
        have hle : (0 : Nat) ≤ ss.length := Nat.zero_le _
        have := hag 0 hle (by simp)
        simpa [hm] using this
      rw [h0]
      have h' : (parse f >>= fun t =>
          readTimesLoop parse markers rest >>= fun pr =>
            Except.ok (c :: pr.1, t :: pr.2)) = Except.ok (ss, ts) := h
      show (parse f >>= fun t =>
          readTimesLoop parse markers' rest >>= fun pr =>
            Except.ok (c :: pr.1, t :: pr.2)) = Except.ok (ss, ts)
      cases hp : parse f with
      | error e => rw [hp] at h'; exact Except.noConfusion h'
      | ok t =>
        rw [hp] at h'
        simp only [ok_bind] at h' ⊢
        cases hr : readTimesLoop parse markers rest with
        | error e => rw [hr] at h'; exact Except.noConfusion h'
        | ok pair =>
          rw [hr] at h'
          simp only [ok_bind] at h'
          have hpair := Except.ok.inj h'
          have hss : ss = c :: pair.1 := (congrArg Prod.fst hpair).symm
          have hr' : readTimesLoop parse markers' rest = .ok (pair.1, pair.2) := by
            refine ih pair.1 pair.2 (by rw [hr]) ?_
            intro i hile hi
            have := hag (i + 1) (by rw [hss]; simpa using Nat.succ_le_succ hile)
              (by simpa using Nat.succ_lt_succ hi)
            simpa using this
          rw [hr']
          simpa using h'

/-- C4: for every output directory the time-index resolver returns step and
time arrays of equal length, with the steps being exactly
`0, print_step, 2 print_step, …` — candidate `i` is `i * print_step` — each
listed step's marker present, the resolution stopping at the first missing
marker (if the candidate list was not exhausted, the next candidate's marker
is absent), and the result depending only on the markers of the listed steps
and of the first missing one (later files are not consulted). -/
theorem readTimes_stops_at_first_gap
    (markers : Nat → Option MarkerFile) (p M : Nat) (ss : List Nat) (ts : List ℚ)
    (h : readTimesA markers p M = .ok (ss, ts)) :
    ss.length = ts.length ∧
    (∀ i, i < ss.length → ss[i]? = some (i * p)) ∧
    (∀ i, i < ss.length → markers (i * p) ≠ none) ∧
    (ss.length < (candidateSteps p M).length → markers (ss.length * p) = none) ∧
    (∀ markers' : Nat → Option MarkerFile,
      (∀ i, i ≤ ss.length → markers' (i * p) = markers (i * p)) →
      readTimesA markers' p M = .ok (ss, ts)) := by
  unfold readTimesA readTimesWith at h
  by_cases hp0 : p = 0
  · rw [if_pos hp0] at h; exact Except.noConfusion h
  rw [if_neg hp0] at h
  cases hl : readTimesLoop (fun f => parseTimeA f.ws) markers (candidateSteps p M) with
  | error e => rw [hl] at h; exact Except.noConfusion h
  | ok pair =>
    obtain ⟨ss0, ts0⟩ := pair
    rw [hl] at h
    simp only [ok_bind] at h
    have hss : ss = ss0 := (congrArg (fun p => p.1) (Except.ok.inj h)).symm
    have hts : ts = ts0.map (fun t => (1 / 10 ^ 6 : ℚ) * t) :=
      (congrArg (fun p => p.2) (Except.ok.inj h)).symm
    subst hss
    obtain ⟨hlen, htake, hmem, hnext⟩ :=
      readTimesLoop_spec (fun f => parseTimeA f.ws) markers (candidateSteps p M) ss ts0 hl
    have hlen_le : ss.length ≤ (candidateSteps p M).length := by
      conv_lhs => rw [htake]
      simp
    have hgetss : ∀ i, i < ss.length → ss[i]? = some (i * p) := by
      intro i hi
      conv_lhs => rw [htake]
      rw [List.getElem?_take, if_pos hi]
      exact candidateSteps_getElem? p M i (lt_of_lt_of_le hi hlen_le)
    refine ⟨by simp [hts, hlen], hgetss, ?_, ?_, ?_⟩
    · intro i hi
      have hmem' : i * p ∈ ss := by
        have := hgetss i hi
        exact List.getElem?_mem this
      exact hmem (i * p) hmem'
    · intro hlt
      have := hnext hlt
      have hcand : (candidateSteps p M).get ⟨ss.length, hlt⟩ = ss.length * p := by
        have h2 := candidateSteps_getElem? p M ss.length hlt
        have h3 : (candidateSteps p M)[ss.length]? =
            some ((candidateSteps p M).get ⟨ss.length, hlt⟩) := by
          simp [List.getElem?_eq_getElem hlt]
        rw [h2] at h3
        exact (Option.some.inj h3).symm
      rwa [hcand] at this
    · intro markers' hag
      unfold readTimesA readTimesWith
      rw [if_neg hp0]
      have hl' : readTimesLoop (fun f => parseTimeA f.ws) markers' (candidateSteps p M) =
          .ok (ss, ts0) := by
        refine readTimesLoop_agrees _ markers markers' _ ss ts0 hl ?_
        intro i hile hi
        have hcand : (candidateSteps p M).get ⟨i, hi⟩ = i * p := by
          have h2 := candidateSteps_getElem? p M i hi
          have h3 : (candidateSteps p M)[i]? =
              some ((candidateSteps p M).get ⟨i, hi⟩) := by
            simp [List.getElem?_eq_getElem hi]
          rw [h2] at h3
          exact (Option.some.inj h3).symm
        rw [hcand]
        exact hag i hile
      rw [hl']
      simp only [ok_bind]
      rw [hts]

/-- Witness for C4: the directory with markers at steps 0 and 10, a gap at
20 and a corrupt marker at 30 resolves (with `print_step = 10`,
`step_max = 100`) to exactly `([0, 10], [1, 2])` — the corrupt file past the
gap is never consulted — and the general theorem applies to it. -/
theorem readTimes_stops_at_first_gap_witness :
    (readTimesA exMarkers 10 100 = .ok ([0, 10], [1, 2]) ∧
      exMarkers 20 = none ∧ exMarkers 30 = some markerCorrupt) ∧
    (([0, 10] : List Nat).length = ([1, 2] : List ℚ).length ∧
      (∀ i, i < ([0, 10] : List Nat).length → ([0, 10] : List Nat)[i]? = some (i * 10)) ∧
      (∀ i, i < ([0, 10] : List Nat).length → exMarkers (i * 10) ≠ none) ∧
      (([0, 10] : List Nat).length < (candidateSteps 10 100).length →
        exMarkers (([0, 10] : List Nat).length * 10) = none) ∧
      (∀ markers' : Nat → Option MarkerFile,
        (∀ i, i ≤ ([0, 10] : List Nat).length → markers' (i * 10) = exMarkers (i * 10)) →
        readTimesA markers' 10 100 = .ok ([0, 10], [1, 2]))) := by
  have heval : readTimesA exMarkers 10 100 = .ok ([0, 10], [1, 2]) := by
    have hc : candidateSteps 10 100 = [0, 10, 20, 30, 40, 50, 60, 70, 80, 90, 100] := by
      decide
    simp only [readTimesA, readTimesWith, hc]
    norm_num [readTimesLoop, parseTimeA, exMarkers, markerLayoutA, markerLayoutA2, tokNum]
  exact ⟨⟨heval, by decide, by decide⟩,
    readTimes_stops_at_first_gap exMarkers 10 100 [0, 10] [1, 2] heval⟩

/-! ### Claims C5 and C8: flush-to-zero and velocity demultiplexing -/

/-- Length of a strided slice: the ceiling of `length / d`. -/
theorem strided_length (d : Nat) (hd : 0 < d) (l : List ℚ) :
    (strided d l).length = (l.length + d - 1) / d := by
  induction l using strided.induct d with
  | case1 => simp [strided, Nat.div_eq_of_lt, hd]
  | case2 x xs ih =>
    rw [strided]
    simp only [List.length_cons, ih, List.length_drop]
    rcases Nat.lt_or_ge xs.length (d - 1) with hL | hL
    · have h1 : xs.length - (d - 1) = 0 := by omega
      have h2 : (0 + d - 1) / d = 0 := Nat.div_eq_of_lt (by omega)
      have h3 : xs.length + 1 + d - 1 = xs.length + d := by omega
      rw [h1, h2, h3, Nat.add_div_right _ hd, Nat.div_eq_of_lt (by omega)]
    · have h1 : xs.length - (d - 1) + d - 1 = xs.length := by omega
      have h3 : xs.length + 1 + d - 1 = xs.length + d := by omega
      rw [h1, h3, Nat.add_div_right _ hd]

/-- Element `m` of the strided slice `l[:: d]` is element `d * m` of `l`. -/
theorem strided_getElem? (d : Nat) (hd : 0 < d) (l : List ℚ) (m : Nat) :
    (strided d l)[m]? = l[d * m]? := by
  induction m generalizing l with
  | zero =>
    cases l with
    | nil => simp [strided]
    | cons x xs => simp [strided]
  | succ m ih =>
    cases l with
    | nil => simp [strided]
    | cons x xs =>
      rw [strided, List.getElem?_cons_succ, ih, List.getElem?_drop]
      have heq : d * (m + 1) = (d - 1 + d * m) + 1 := by
        rw [Nat.mul_succ]
        omega
      rw [heq, List.getElem?_cons_succ]

/-- Element `m` of the numpy slice `l[c :: d]` is element `c + d * m` of
`l`. -/
theorem sliceStride_getElem? (c d : Nat) (hd : 0 < d) (l : List ℚ) (m : Nat) :
    (sliceStride c d l)[m]? = l[c + d * m]? := by
  unfold sliceStride
  rw [strided_getElem? d hd, List.getElem?_drop]

/-- A slice with stride `d` and offset `c < d` of a list of `d * n`
interleaved values has exactly `n` elements. -/
theorem sliceStride_length (c d n : Nat) (hd : 0 < d) (hc : c < d) (l : List ℚ)
    (hl : l.length = d * n) : (sliceStride c d l).length = n := by
  unfold sliceStride
  rw [strided_length d hd, List.length_drop, hl]
  rcases Nat.eq_zero_or_pos n with rfl | hn
  · rw [Nat.mul_zero]
    exact Nat.div_eq_of_lt (by omega)
  · have hdn : d ≤ d * n := Nat.le_mul_of_pos_right d hn
    have h1 : d * n - c + d - 1 = d * n + (d - 1 - c) := by omega
    rw [h1, Nat.mul_add_div hd, Nat.div_eq_of_lt (by omega), Nat.add_zero]

/-- The flush filter commutes with `getD` at default `0` (a missing entry
flushes to `0` as well). -/
theorem getD_map_flushSmall (l : List ℚ) (n : Nat) :
    (l.map flushSmall).getD n 0 = flushSmall (l.getD n 0) := by
  rw [List.getD_eq_getElem?_getD, List.getD_eq_getElem?_getD, List.getElem?_map]
  cases l[n]? with
  | none =>
    simp only [Option.map_none', Option.getD_none]
    rw [flushSmall, if_pos]
    rw [abs_zero, noiseFloor]
    norm_num
  | some x => rfl

/-- Entry `(i, k)` of the column-major reshape is flat element
`i + nx * k`. -/
theorem reshapeF2_entry (nx nz : Nat) (v : List ℚ) (i k : Nat)
    (hi : i < nx) (hk : k < nz) :
    ((reshapeF2 nx nz v).getD i []).getD k 0 = v.getD (i + nx * k) 0 := by
  unfold reshapeF2
  have h1 : (List.map (fun i => List.map (fun k => v.getD (i + nx * k) 0)
      (List.range nz)) (List.range nx)).getD i [] =
      List.map (fun k => v.getD (i + nx * k) 0) (List.range nz) := by
    rw [List.getD_eq_getElem?_getD, List.getElem?_map, List.getElem?_range hi]
    rfl
  rw [h1, List.getD_eq_getElem?_getD, List.getElem?_map, List.getElem?_range hk]
  rfl

/-- Entry `(i, j, k)` of the 3-D column-major reshape is flat element
`i + nx * j + nx * ny * k`. -/
theorem reshapeF3_entry (nx ny nz : Nat) (v : List ℚ) (i j k : Nat)
    (hi : i < nx) (hj : j < ny) (hk : k < nz) :
    (((reshapeF3 nx ny nz v).getD i []).getD j []).getD k 0 =
      v.getD (i + nx * j + nx * ny * k) 0 := by
  unfold reshapeF3
  have h1 : (List.map (fun i => List.map (fun j => List.map
      (fun k => v.getD (i + nx * j + nx * ny * k) 0) (List.range nz))
      (List.range ny)) (List.range nx)).getD i [] =
      List.map (fun j => List.map (fun k => v.getD (i + nx * j + nx * ny * k) 0)
        (List.range nz)) (List.range ny) := by
    rw [List.getD_eq_getElem?_getD, List.getElem?_map, List.getElem?_range hi]
    rfl
  have h2 : (List.map (fun j => List.map (fun k => v.getD (i + nx * j + nx * ny * k) 0)
      (List.range nz)) (List.range ny)).getD j [] =
      List.map (fun k => v.getD (i + nx * j + nx * ny * k) 0) (List.range nz) := by
    rw [List.getD_eq_getElem?_getD, List.getElem?_map, List.getElem?_range hj]
    rfl
  rw [h1, h2, List.getD_eq_getElem?_getD, List.getElem?_map, List.getElem?_range hk]
  rfl

/-- C5: every value stored by the scalar or velocity field reader is the
flush of the corresponding raw value — values with `|v| < 1e-200` become
exactly `0`, values with `|v| ≥ 1e-200` are preserved unchanged — and the
flush is applied to the flat sequence before the column-major reshape: entry
`(i, k)` of the result is the flush of raw flat element `i + nx * k`
(scalars) resp. of the interleaved elements `2 (i + nx k)` and
`2 (i + nx k) + 1` (velocity). -/
theorem flush_before_reshape (nx nz : Nat) (f : TextFile) (vals : List ℚ)
    (h : loadtxtFlat 'P' 2 f = .ok vals) :
    (∀ v : ℚ, |v| < noiseFloor → flushSmall v = 0) ∧
    (∀ v : ℚ, noiseFloor ≤ |v| → flushSmall v = v) ∧
    (∀ G, readScalarsStep nx nz f = .ok G →
      ∀ i k, i < nx → k < nz →
        (G.getD i []).getD k 0 = flushSmall (vals.getD (i + nx * k) 0)) ∧
    (∀ Gx Gz, readVelocityStep2 nx nz f = .ok (Gx, Gz) →
      ∀ i k, i < nx → k < nz →
        (Gx.getD i []).getD k 0 = flushSmall (vals.getD (2 * (i + nx * k)) 0) ∧
        (Gz.getD i []).getD k 0 = flushSmall (vals.getD (2 * (i + nx * k) + 1) 0)) := by
  refine ⟨fun v hv => if_pos hv, fun v hv => if_neg (not_lt.mpr hv), ?_, ?_⟩
  · intro G hG i k hi hk
    unfold readScalarsStep scalarPipeline at hG
    rw [h] at hG
    simp only [ok_bind] at hG
    by_cases hlen : (vals.map flushSmall).length = nx * nz
    · rw [if_pos hlen] at hG
      have hGeq : G = reshapeF2 nx nz (vals.map flushSmall) := (Except.ok.inj hG).symm
      rw [hGeq, reshapeF2_entry _ _ _ _ _ hi hk, getD_map_flushSmall]
    · rw [if_neg hlen] at hG
      exact Except.noConfusion hG
  · intro Gx Gz hG i k hi hk
    unfold readVelocityStep2 at hG
    rw [h] at hG
    simp only [ok_bind] at hG
    by_cases hlen : (sliceStride 0 2 (vals.map flushSmall)).length = nx * nz ∧
        (sliceStride 1 2 (vals.map flushSmall)).length = nx * nz
    · rw [if_pos hlen] at hG
      have hGeq := Except.ok.inj hG
      have hx : Gx = reshapeF2 nx nz (sliceStride 0 2 (vals.map flushSmall)) :=
        (congrArg Prod.fst hGeq).symm
      have hz : Gz = reshapeF2 nx nz (sliceStride 1 2 (vals.map flushSmall)) :=
        (congrArg Prod.snd hGeq).symm
      constructor
      · rw [hx, reshapeF2_entry _ _ _ _ _ hi hk, List.getD_eq_getElem?_getD,
          sliceStride_getElem? 0 2 (by norm_num), ← List.getD_eq_getElem?_getD,
          getD_map_flushSmall, Nat.zero_add]
      · rw [hz, reshapeF2_entry _ _ _ _ _ hi hk, List.getD_eq_getElem?_getD,
          sliceStride_getElem? 1 2 (by norm_num), ← List.getD_eq_getElem?_getD,
          getD_map_flushSmall, Nat.add_comm 1]
    · rw [if_neg hlen] at hG
      exact Except.noConfusion hG

/-- Witness for C5: the concrete scalar file carrying `5, 0, 3, 7` read as a
`(2, 2)` grid — the theorem applied at it, with its hypothesis discharged by
evaluation. -/
theorem flush_before_reshape_witness :
    (∀ v : ℚ, |v| < noiseFloor → flushSmall v = 0) ∧
    (∀ v : ℚ, noiseFloor ≤ |v| → flushSmall v = v) ∧
    (∀ G, readScalarsStep 2 2 exScalarFile = .ok G →
      ∀ i k, i < 2 → k < 2 →
        (G.getD i []).getD k 0 =
          flushSmall (([5, 0, 3, 7] : List ℚ).getD (i + 2 * k) 0)) ∧
    (∀ Gx Gz, readVelocityStep2 2 2 exScalarFile = .ok (Gx, Gz) →
      ∀ i k, i < 2 → k < 2 →
        (Gx.getD i []).getD k 0 =
          flushSmall (([5, 0, 3, 7] : List ℚ).getD (2 * (i + 2 * k)) 0) ∧
        (Gz.getD i []).getD k 0 =
          flushSmall (([5, 0, 3, 7] : List ℚ).getD (2 * (i + 2 * k) + 1) 0)) :=
  flush_before_reshape 2 2 exScalarFile [5, 0, 3, 7] (by decide)

/-- C8: for every velocity flat dump interleaving the components per grid
point (component varying fastest), the velocity reader demultiplexes
component `c` by taking the elements at offset `c` with stride equal to the
dimension, reshapes each slice column-major into the grid shape, and returns
exactly `dimension` dense arrays: two for 2-D data, three for 3-D data,
entry `(i, [j,] k)` of component `c` being the flush of flat element
`c + dimension * (column-major position)`. -/
theorem velocity_demux (nx ny nz : Nat) (f : TextFile) (vals : List ℚ)
    (h : loadtxtFlat 'P' 2 f = .ok vals) :
    (vals.length = 2 * (nx * nz) →
      ∃ Gx Gz, readVelocityStep2 nx nz f = .ok (Gx, Gz) ∧
        ∀ i k, i < nx → k < nz →
          (Gx.getD i []).getD k 0 = flushSmall (vals.getD (0 + 2 * (i + nx * k)) 0) ∧
          (Gz.getD i []).getD k 0 = flushSmall (vals.getD (1 + 2 * (i + nx * k)) 0)) ∧
    (vals.length = 3 * (nx * ny * nz) →
      ∃ Gx Gy Gz, readVelocityStep3 nx ny nz f = .ok (Gx, Gy, Gz) ∧
        ∀ i j k, i < nx → j < ny → k < nz →
          (((Gx.getD i []).getD j []).getD k 0 =
            flushSmall (vals.getD (0 + 3 * (i + nx * j + nx * ny * k)) 0)) ∧
          (((Gy.getD i []).getD j []).getD k 0 =
            flushSmall (vals.getD (1 + 3 * (i + nx * j + nx * ny * k)) 0)) ∧
          (((Gz.getD i []).getD j []).getD k 0 =
            flushSmall (vals.getD (2 + 3 * (i + nx * j + nx * ny * k)) 0))) := by
  constructor
  · intro hlen
    have hmap : (vals.map flushSmall).length = 2 * (nx * nz) := by simpa using hlen
    have hsx := sliceStride_length 0 2 (nx * nz) (by norm_num) (by norm_num) _ hmap
    have hsz := sliceStride_length 1 2 (nx * nz) (by norm_num) (by norm_num) _ hmap
    refine ⟨reshapeF2 nx nz (sliceStride 0 2 (vals.map flushSmall)),
      reshapeF2 nx nz (sliceStride 1 2 (vals.map flushSmall)), ?_, ?_⟩
    · unfold readVelocityStep2
      rw [h]
      simp only [ok_bind]
      rw [if_pos ⟨hsx, hsz⟩]
    · intro i k hi hk
      constructor
      · rw [reshapeF2_entry _ _ _ _ _ hi hk, List.getD_eq_getElem?_getD,
          sliceStride_getElem? 0 2 (by norm_num), ← List.getD_eq_getElem?_getD,
          getD_map_flushSmall]
      · rw [reshapeF2_entry _ _ _ _ _ hi hk, List.getD_eq_getElem?_getD,
          sliceStride_getElem? 1 2 (by norm_num), ← List.getD_eq_getElem?_getD,
          getD_map_flushSmall]
  · intro hlen
    have hmap : (vals.map flushSmall).length = 3 * (nx * ny * nz) := by simpa using hlen
    have hsx := sliceStride_length 0 3 (nx * ny * nz) (by norm_num) (by norm_num) _ hmap
    have hsy := sliceStride_length 1 3 (nx * ny * nz) (by norm_num) (by norm_num) _ hmap
    have hsz := sliceStride_length 2 3 (nx * ny * nz) (by norm_num) (by norm_num) _ hmap
    refine ⟨reshapeF3 nx ny nz (sliceStride 0 3 (vals.map flushSmall)),
      reshapeF3 nx ny nz (sliceStride 1 3 (vals.map flushSmall)),
      reshapeF3 nx ny nz (sliceStride 2 3 (vals.map flushSmall)), ?_, ?_⟩
    · unfold readVelocityStep3
      rw [h]
      simp only [ok_bind]
      rw [if_pos ⟨hsx, hsy, hsz⟩]
    · intro i j k hi hj hk
      refine ⟨?_, ?_, ?_⟩
      · rw [reshapeF3_entry _ _ _ _ _ _ _ hi hj hk, List.getD_eq_getElem?_getD,
          sliceStride_getElem? 0 3 (by norm_num), ← List.getD_eq_getElem?_getD,
          getD_map_flushSmall]
      · rw [reshapeF3_entry _ _ _ _ _ _ _ hi hj hk, List.getD_eq_getElem?_getD,
          sliceStride_getElem? 1 3 (by norm_num), ← List.getD_eq_getElem?_getD,
          getD_map_flushSmall]
      · rw [reshapeF3_entry _ _ _ _ _ _ _ hi hj hk, List.getD_eq_getElem?_getD,
          sliceStride_getElem? 2 3 (by norm_num), ← List.getD_eq_getElem?_getD,
          getD_map_flushSmall]

/-- Witness for C8: the theorem applied to a 4-value dump read as a
`(2, 1)` 2-D grid and to a 6-value dump read as a `(1, 1, 2)` 3-D grid, the
hypotheses discharged by evaluation. -/
theorem velocity_demux_witness :
    (∃ Gx Gz, readVelocityStep2 2 1 exVelFile4 = .ok (Gx, Gz) ∧
      ∀ i k, i < 2 → k < 1 →
        (Gx.getD i []).getD k 0 =
          flushSmall (([1, 2, 3, 4] : List ℚ).getD (0 + 2 * (i + 2 * k)) 0) ∧
        (Gz.getD i []).getD k 0 =
          flushSmall (([1, 2, 3, 4] : List ℚ).getD (1 + 2 * (i + 2 * k)) 0)) ∧
    (∃ Gx Gy Gz, readVelocityStep3 1 1 2 exVelFile6 = .ok (Gx, Gy, Gz) ∧
      ∀ i j k, i < 1 → j < 1 → k < 2 →
        (((Gx.getD i []).getD j []).getD k 0 =
          flushSmall (([1, 2, 3, 4, 5, 6] : List ℚ).getD (0 + 3 * (i + 1 * j + 1 * 1 * k)) 0)) ∧
        (((Gy.getD i []).getD j []).getD k 0 =
          flushSmall (([1, 2, 3, 4, 5, 6] : List ℚ).getD (1 + 3 * (i + 1 * j + 1 * 1 * k)) 0)) ∧
        (((Gz.getD i []).getD j []).getD k 0 =
          flushSmall (([1, 2, 3, 4, 5, 6] : List ℚ).getD (2 + 3 * (i + 1 * j + 1 * 1 * k)) 0))) :=
  ⟨(velocity_demux 2 0 1 exVelFile4 [1, 2, 3, 4] (by decide)).1 (by decide),
   (velocity_demux 1 1 2 exVelFile6 [1, 2, 3, 4, 5, 6] (by decide)).2 (by decide)⟩

/-! ### Claim C7: coordinate axes and cell centers -/

/-- Entry `i` of `linspace a b n`. -/
theorem linspace_entry (a b : ℚ) (n i : Nat) (hi : i < n) :
    (linspace a b n).getD i 0 = a + i * (b - a) / (n - 1) := by
  unfold linspace
  rw [List.getD_eq_getElem?_getD, List.getElem?_map, List.getElem?_range hi]
  rfl

/-- A `linspace` has the requested number of points. -/
theorem linspace_length (a b : ℚ) (n : Nat) : (linspace a b n).length = n := by
  simp [linspace]

/-- The first point of a `linspace` is its left endpoint. -/
theorem linspace_first (a b : ℚ) (n : Nat) (hn : 1 ≤ n) :
    (linspace a b n).getD 0 0 = a := by
  rw [linspace_entry a b n 0 (by omega)]
  simp

/-- The last point of a `linspace` is exactly its right endpoint. -/
theorem linspace_last (a b : ℚ) (n : Nat) (hn : 2 ≤ n) :
    (linspace a b n).getD (n - 1) 0 = b := by
  rw [linspace_entry a b n (n - 1) (by omega)]
  have h1 : ((n - 1 : Nat) : ℚ) = (n : ℚ) - 1 := by
    push_cast [Nat.cast_sub (by omega : 1 ≤ n)]
    ring
  have h2 : (n : ℚ) - 1 ≠ 0 := by
    have : (2 : ℚ) ≤ n := by exact_mod_cast hn
    linarith
  rw [h1, mul_div_cancel_left₀ _ h2]
  ring

/-- A `linspace` with `a ≤ b` is monotone non-decreasing. -/
theorem linspace_mono (a b : ℚ) (n : Nat) (hab : a ≤ b) (i j : Nat)
    (hij : i ≤ j) (hj : j < n) :
    (linspace a b n).getD i 0 ≤ (linspace a b n).getD j 0 := by
  rw [linspace_entry a b n i (lt_of_le_of_lt hij hj), linspace_entry a b n j hj]
  have hn1 : (0 : ℚ) ≤ (n : ℚ) - 1 := by
    have : (1 : ℚ) ≤ n := by exact_mod_cast (by omega : 1 ≤ n)
    linarith
  have hc : 0 ≤ (b - a) / ((n : ℚ) - 1) := div_nonneg (by linarith) hn1
  have hcast : (i : ℚ) ≤ j := by exact_mod_cast hij
  have := mul_le_mul_of_nonneg_right hcast hc
  rw [mul_div_assoc, mul_div_assoc]
  linarith

/-- The cell-center list has one element fewer than the node list. -/
theorem centers_length (c : List ℚ) : (centers c).length = c.length - 1 := by
  simp [centers, List.length_zip, List.length_tail, List.length_dropLast]

/-- Entry `i` of the cell-center list is the midpoint of nodes `i` and
`i + 1`. -/
theorem centers_entry (c : List ℚ) (i : Nat) (hi : i + 1 < c.length) :
    (centers c).getD i 0 = (c.getD i 0 + c.getD (i + 1) 0) / 2 := by
  unfold centers
  have hlen : i < (c.tail.zip c.dropLast).length := by
    simp only [List.length_zip, List.length_tail, List.length_dropLast]
    omega
  have htl : i < c.tail.length := by
    simp only [List.length_tail]
    omega
  have hdl : i < c.dropLast.length := by
    simp only [List.length_dropLast]
    omega
  have hci : i < c.length := by omega
  rw [List.getD_eq_getElem?_getD, List.getElem?_map, List.getElem?_eq_getElem hlen]
  simp only [Option.map_some', Option.getD_some]
  rw [List.getElem_zip]
  rw [List.getElem_tail, List.getElem_dropLast]
  rw [List.getD_eq_getElem c 0 hci, List.getD_eq_getElem c 0 hi]
  ring

/-- C7: for valid parameters (at least two points per axis, nonnegative
extents) the coordinate builders return one axis per shape entry with length
equal to that entry; `x` is non-decreasing and spans `[0, x_max]`, `y` spans
`[-y_max, 0]`, `z` spans `[-z_max, 0]`; the 2-D region variant produces the
same `x` and `z` axes; and the cell-center variant consists of the `n - 1`
midpoints of consecutive node coordinates. -/
theorem build_coordinates_spans (xMax yMax zMax : ℚ) (nx ny nz : Nat)
    (hnx : 2 ≤ nx) (hny : 2 ≤ ny) (hnz : 2 ≤ nz)
    (hxm : 0 ≤ xMax) (hym : 0 ≤ yMax) (hzm : 0 ≤ zMax) :
    ∀ x y z, buildCoordinatesMd3d xMax yMax zMax nx ny nz = (x, y, z) →
      (x.length = nx ∧ y.length = ny ∧ z.length = nz) ∧
      (x.getD 0 0 = 0 ∧ x.getD (nx - 1) 0 = xMax ∧
        ∀ i j, i ≤ j → j < nx → x.getD i 0 ≤ x.getD j 0) ∧
      (y.getD 0 0 = -yMax ∧ y.getD (ny - 1) 0 = 0 ∧
        ∀ i j, i ≤ j → j < ny → y.getD i 0 ≤ y.getD j 0) ∧
      (z.getD 0 0 = -zMax ∧ z.getD (nz - 1) 0 = 0 ∧
        ∀ i j, i ≤ j → j < nz → z.getD i 0 ≤ z.getD j 0) ∧
      buildCoordinatesGrids [0, xMax, -zMax, 0] [nx, nz] = .ok [x, z] ∧
      ((centers x).length = nx - 1 ∧
        ∀ i, i + 1 < nx → (centers x).getD i 0 = (x.getD i 0 + x.getD (i + 1) 0) / 2) := by
  intro x y z heq
  unfold buildCoordinatesMd3d at heq
  have hx : x = linspace 0 xMax nx := (congrArg (fun p => p.1) heq).symm
  have hy : y = linspace (-yMax) 0 ny := (congrArg (fun p => p.2.1) heq).symm
  have hz : z = linspace (-zMax) 0 nz := (congrArg (fun p => p.2.2) heq).symm
  subst hx; subst hy; subst hz
  refine ⟨⟨linspace_length _ _ _, linspace_length _ _ _, linspace_length _ _ _⟩,
    ⟨linspace_first _ _ _ (by omega), linspace_last _ _ _ hnx,
      fun i j hij hj => linspace_mono _ _ _ hxm i j hij hj⟩,
    ⟨linspace_first _ _ _ (by omega), linspace_last _ _ _ hny,
      fun i j hij hj => linspace_mono _ _ _ (by linarith) i j hij hj⟩,
    ⟨linspace_first _ _ _ (by omega), linspace_last _ _ _ hnz,
      fun i j hij hj => linspace_mono _ _ _ (by linarith) i j hij hj⟩,
    rfl,
    ?_, ?_⟩
  · rw [centers_length, linspace_length]
  · intro i hi
    exact centers_entry _ i (by rw [linspace_length]; omega)

/-- Witness for C7: the builders at the synthetic extents
`x_max = 1000000`, `y_max = 1000000`, `z_max = 700000` with shape
`(3, 3, 2)`. -/
theorem build_coordinates_spans_witness :
    ((linspace 0 1000000 3).length = 3 ∧ (linspace (-1000000) 0 3).length = 3 ∧
      (linspace (-700000) 0 2).length = 2) ∧
    ((linspace 0 1000000 3).getD 0 0 = 0 ∧
      (linspace 0 1000000 3).getD (3 - 1) 0 = 1000000 ∧
      ∀ i j, i ≤ j → j < 3 →
        (linspace 0 1000000 3).getD i 0 ≤ (linspace 0 1000000 3).getD j 0) ∧
    ((linspace (-1000000) 0 3).getD 0 0 = -1000000 ∧
      (linspace (-1000000) 0 3).getD (3 - 1) 0 = 0 ∧
      ∀ i j, i ≤ j → j < 3 →
        (linspace (-1000000) 0 3).getD i 0 ≤ (linspace (-1000000) 0 3).getD j 0) ∧
    ((linspace (-700000) 0 2).getD 0 0 = -700000 ∧
      (linspace (-700000) 0 2).getD (2 - 1) 0 = 0 ∧
      ∀ i j, i ≤ j → j < 2 →
        (linspace (-700000) 0 2).getD i 0 ≤ (linspace (-700000) 0 2).getD j 0) ∧
    buildCoordinatesGrids [0, 1000000, -700000, 0] [3, 2] =
      .ok [linspace 0 1000000 3, linspace (-700000) 0 2] ∧
    ((centers (linspace 0 1000000 3)).length = 3 - 1 ∧
      ∀ i, i + 1 < 3 → (centers (linspace 0 1000000 3)).getD i 0 =
        ((linspace 0 1000000 3).getD i 0 + (linspace 0 1000000 3).getD (i + 1) 0) / 2) :=
  build_coordinates_spans 1000000 1000000 700000 3 3 2 (by norm_num) (by norm_num)
    (by norm_num) (by norm_num) (by norm_num) (by norm_num)
    (linspace 0 1000000 3) (linspace (-1000000) 0 3) (linspace (-700000) 0 2) rfl

/-! ### Claim C2: the save/read round trip -/

/-- Indexing a flattened list of uniform-length parts. -/
theorem flatten_uniform_getElem? (ps : List (List ℚ)) (n : Nat)
    (h : ∀ p ∈ ps, p.length = n) (k i : Nat) (hi : i < n) :
    ps.flatten[i + n * k]? = ps[k]?.bind (fun p => p[i]?) := by
  induction ps generalizing k with
  | nil => simp
  | cons p rest ih =>
    have hp : p.length = n := h p (by simp)
    cases k with
    | zero =>
      rw [List.flatten_cons]
      simp only [Nat.mul_zero, Nat.add_zero]
      rw [List.getElem?_append, if_pos (by omega)]
      simp
    | succ k =>
      rw [List.flatten_cons,
        List.getElem?_append_right (by rw [hp, Nat.mul_succ]; omega)]
      have harith : i + n * (k + 1) - p.length = i + n * k := by
        rw [hp, Nat.mul_succ]
        omega
      rw [harith, ih (fun q hq => h q (by simp [hq])) k]
      simp

/-- The column-major ravel of an `(nx, nz)` array has `nz * nx` elements. -/
theorem ravelF2_length (nx nz : Nat) (T : List (List ℚ)) :
    (ravelF2 nx nz T).length = nz * nx := by
  unfold ravelF2
  rw [List.length_flatten, List.map_map]
  have hconst : List.map (List.length ∘ fun k =>
      List.map (fun i => (T.getD i []).getD k 0) (List.range nx)) (List.range nz) =
      List.map (fun _ => nx) (List.range nz) := by
    apply List.map_congr_left
    intro a _
    simp
  rw [hconst]
  induction nz with
  | zero => simp
  | succ m ihm => rw [List.range_succ, List.map_append, List.sum_append]; simp [ihm, Nat.succ_mul]

/-- Element `i + nx * k` of the column-major ravel is entry `(i, k)` of the
array. -/
theorem ravelF2_getD (nx nz : Nat) (T : List (List ℚ)) (i k : Nat)
    (hi : i < nx) (hk : k < nz) :
    (ravelF2 nx nz T).getD (i + nx * k) 0 = (T.getD i []).getD k 0 := by
  unfold ravelF2
  rw [List.getD_eq_getElem?_getD]
  rw [flatten_uniform_getElem? _ nx (by intro p hp; obtain ⟨k', _, rfl⟩ := List.mem_map.mp hp; simp) k i hi]
  rw [List.getElem?_map, List.getElem?_range hk]
  simp only [Option.map_some', Option.some_bind]
  rw [List.getElem?_map, List.getElem?_range hi]
  rfl

/-- Column-major reshape inverts the column-major ravel on rectangular
arrays. -/
theorem reshapeF2_ravelF2 (nx nz : Nat) (T : List (List ℚ))
    (hlen : T.length = nx) (hrow : ∀ r ∈ T, r.length = nz) :
    reshapeF2 nx nz (ravelF2 nx nz T) = T := by
  apply List.ext_getElem
  · simp [reshapeF2, hlen]
  · intro n h1 h2
    have hn : n < nx := by simpa [reshapeF2] using h1
    unfold reshapeF2
    rw [List.getElem_map, List.getElem_range]
    apply List.ext_getElem
    · simp only [List.length_map, List.length_range]
      exact (hrow _ (List.getElem_mem h2)).symm
    · intro m hm1 hm2
      simp only [List.length_map, List.length_range] at hm1
      rw [List.getElem_map, List.getElem_range]
      have hrm : m < nz := by
        rw [hrow _ (List.getElem_mem h2)] at hm2
        exact hm2
      rw [ravelF2_getD nx nz T n m hn hrm]
      rw [List.getD_eq_getElem T [] h2, List.getD_eq_getElem _ 0 hm2]

/-- Reading back the single-value lines written for the raveled values
parses to exactly those values. -/
theorem mapM_parseRow_numLines (vals : List ℚ) :
    (vals.map fun v => [Tok.num v]).mapM parseRow = .ok (vals.map fun v => [v]) := by
  induction vals with
  | nil => rfl
  | cons v vs ih =>
    rw [List.map_cons, List.mapM_cons]
    show (parseRow [Tok.num v] >>= fun b =>
      (vs.map fun v => [Tok.num v]).mapM parseRow >>= fun bs => pure (b :: bs)) = _
    rw [show parseRow [Tok.num v] = Except.ok [v] from rfl, ok_bind, ih, ok_bind]
    rfl

/-- Comment-stripping and empty-line filtering leave the single-value data
lines unchanged. -/
theorem stripFilter_numLines (vals : List ℚ) :
    ((vals.map fun v => [Tok.num v]).map (stripComment 'P')).filter
      (fun l => !l.isEmpty) = vals.map fun v => [Tok.num v] := by
  induction vals with
  | nil => rfl
  | cons v vs ih =>
    simp only [List.map_cons, List.filter_cons]
    rw [show stripComment 'P' [Tok.num v] = [Tok.num v] from rfl]
    simp only [List.isEmpty_cons, Bool.not_false, if_pos]
    rw [ih]

/-- A flattened list of singletons is the original list. -/
theorem flatten_singletons (vals : List ℚ) :
    (vals.map fun v => [v]).flatten = vals := by
  induction vals with
  | nil => rfl
  | cons v vs ih => simp [ih]

/-- Reading the file written by `save_temperature` with all four header
lines skipped yields exactly the raveled values. -/
theorem loadtxtFlat_save (nx nz : Nat) (T : List (List ℚ)) :
    loadtxtFlat 'P' 4 (saveTemperatureFile nx nz T) = .ok (ravelF2 nx nz T) := by
  unfold loadtxtFlat loadtxtRows saveTemperatureFile
  rw [show List.drop 4
      ([[Tok.word "#", Tok.word "T1"], [Tok.word "#", Tok.word "T2"],
        [Tok.word "#", Tok.word "T3"], [Tok.word "#", Tok.word "T4"]] ++
        (ravelF2 nx nz T).map (fun v => [Tok.num v])) =
      (ravelF2 nx nz T).map (fun v => [Tok.num v]) from by simp]
  rw [stripFilter_numLines, mapM_parseRow_numLines]
  rw [show ∀ l : List (List ℚ), (Except.ok l : Except Err (List (List ℚ))).map
      List.flatten = Except.ok l.flatten from fun l => rfl]
  rw [flatten_singletons]

/-- C2 counterexample: the round trip fails as stated.  Writing the 1×1
array `[[5]]` with the temperature serializer produces a file whose third
and fourth header lines survive `skiprows=2` and are not comments for the
marker `P`, so the scalar reader raises `ValueError` instead of returning
the array. -/
theorem saveTemperature_roundTrip_cex :
    readScalarsStep 1 1 (saveTemperatureFile 1 1 [[(5 : ℚ)]]) = .error .valueError ∧
    readScalarsStep 1 1 (saveTemperatureFile 1 1 [[(5 : ℚ)]]) ≠ .ok [[(5 : ℚ)]] := by
  constructor
  · decide
  · decide

/-- C2 amended: with all four header lines skipped (instead of the reader's
two), reading the file written by the temperature serializer through the
scalar-reader pipeline reproduces the original array exactly — column-major
order preserved — for every rectangular array whose entries are `0` or at
least `1e-200` in magnitude (smaller nonzero entries would be flushed). -/
theorem saveTemperature_roundTrip_amended (nx nz : Nat) (T : List (List ℚ))
    (hlen : T.length = nx) (hrow : ∀ r ∈ T, r.length = nz)
    (hval : ∀ r ∈ T, ∀ v ∈ r, v = 0 ∨ noiseFloor ≤ |v|) :
    scalarPipeline 4 nx nz (saveTemperatureFile nx nz T) = .ok T := by
  unfold scalarPipeline
  rw [loadtxtFlat_save]
  simp only [ok_bind]
  have hflush : (ravelF2 nx nz T).map flushSmall = ravelF2 nx nz T := by
    have hid : ∀ v ∈ ravelF2 nx nz T, flushSmall v = id v := by
      intro v hv
      unfold ravelF2 at hv
      rw [List.mem_flatten] at hv
      obtain ⟨part, hpart, hvp⟩ := hv
      obtain ⟨k, hk, rfl⟩ := List.mem_map.mp hpart
      obtain ⟨i, hi, rfl⟩ := List.mem_map.mp hvp
      rw [List.mem_range] at hk hi
      have hrowmem : T.getD i [] ∈ T := by
        rw [List.getD_eq_getElem T [] (by omega : i < T.length)]
        exact List.getElem_mem _
      have hvalmem : (T.getD i []).getD k 0 = 0 ∨
          (T.getD i []).getD k 0 ∈ T.getD i [] := by
        rcases Nat.lt_or_ge k (T.getD i []).length with hklen | hklen
        · right
          rw [List.getD_eq_getElem _ 0 hklen]
          exact List.getElem_mem _
        · left
          rw [List.getD_eq_getElem?_getD, List.getElem?_eq_none (by omega)]
          rfl
      rcases hvalmem with hzero | hmem
      · rw [hzero]
        show flushSmall 0 = 0
        rw [flushSmall, if_pos]
        rw [abs_zero, noiseFloor]
        norm_num
      · rcases hval _ hrowmem _ hmem with hzero | hbig
        · rw [hzero]
          show flushSmall 0 = 0
          rw [flushSmall, if_pos]
          rw [abs_zero, noiseFloor]
          norm_num
        · exact if_neg (not_lt.mpr hbig)
    rw [List.map_congr_left hid, List.map_id]
  rw [hflush]
  rw [if_pos (by rw [ravelF2_length]; exact Nat.mul_comm nz nx)]
  rw [reshapeF2_ravelF2 nx nz T hlen hrow]

/-- Witness for C2 (amended form): the 2×2 array `[[1, 2], [3, 4]]` written
and read back with the four header lines skipped. -/
theorem saveTemperature_roundTrip_amended_witness :
    scalarPipeline 4 2 2 (saveTemperatureFile 2 2 [[1, 2], [3, 4]]) =
      .ok [[1, 2], [3, 4]] :=
  saveTemperature_roundTrip_amended 2 2 [[1, 2], [3, 4]] (by decide)
    (by intro r hr; fin_cases hr <;> decide)
    (by
      intro r hr v hv
      right
      fin_cases hr <;> fin_cases hv <;> rw [noiseFloor] <;> norm_num)

/-! ### Claim C10: viscosity scatter semantics -/

/-- Last mention distributes over concatenation: a mention in the later
rows wins. -/
theorem lastMention_append (xs ys : List VRow2) (a b : Nat) :
    lastMention (xs ++ ys) a b =
      match lastMention ys a b with
      | some v => some v
      | none => lastMention xs a b := by
  induction xs with
  | nil =>
    cases hys : lastMention ys a b <;> simp [lastMention, hys]
  | cons x xs ih =>
    rw [List.cons_append, lastMention, ih, lastMention]
    cases hys : lastMention ys a b <;> cases hxs : lastMention xs a b <;> simp

/-- A checked scatter of in-range rows succeeds and realizes
last-write-wins on top of the starting grid. -/
theorem writeRows2_spec (nxc nzc : Nat) (g : Grid2) (rows : List VRow2)
    (hin : ∀ r ∈ rows, r.i < nxc ∧ r.k < nzc) :
    ∃ g', writeRows2 nxc nzc g rows = .ok g' ∧
      ∀ a b, g' a b =
        match lastMention rows a b with
        | some v => v
        | none => g a b := by
  induction rows generalizing g with
  | nil => exact ⟨g, rfl, by intro a b; simp [lastMention]⟩
  | cons r rest ih =>
    rw [writeRows2, if_pos (hin r (by simp))]
    obtain ⟨g', hg', hspec⟩ := ih (writeRow2 g r) (fun q hq => hin q (by simp [hq]))
    refine ⟨g', hg', ?_⟩
    intro a b
    rw [hspec a b, lastMention]
    cases hlm : lastMention rest a b with
    | some v => simp
    | none =>
      by_cases hc : a = r.i ∧ b = r.k <;> simp [writeRow2, hc]

/-- The rows of one step over one more rank file. -/
theorem stepRows_succ (content : Nat → Option (List VRow2)) (m : Nat) :
    stepRows content (m + 1) = stepRows content m ++ (content m).getD [] := by
  unfold stepRows
  rw [List.range_succ, List.map_append, List.flatten_append]
  simp

/-- The rank loop of `_read_viscosity` for one step succeeds on present,
in-range rank files and realizes last-write-wins over the rows of the step
in file-then-row order, starting from the zero-filled grid. -/
theorem readViscosityStepFiles_spec (nxc nzc : Nat)
    (content : Nat → Option (List VRow2)) (nrank : Nat)
    (hcont : ∀ r, r < nrank → content r ≠ none)
    (hin : ∀ r, r < nrank → ∀ row ∈ (content r).getD [], row.i < nxc ∧ row.k < nzc) :
    ∃ g, readViscosityStepFiles nxc nzc content nrank (fun _ _ => 0) = .ok g ∧
      ∀ a b, g a b =
        match lastMention (stepRows content nrank) a b with
        | some v => v
        | none => 0 := by
  induction nrank with
  | zero =>
    exact ⟨fun _ _ => 0, rfl, by intro a b; simp [stepRows, lastMention]⟩
  | succ m ih =>
    obtain ⟨g, hg, hspec⟩ := ih (fun r hr => hcont r (by omega))
      (fun r hr => hin r (by omega))
    obtain ⟨rows, hrows⟩ : ∃ rows, content m = some rows := by
      cases hcm : content m with
      | none => exact absurd hcm (hcont m (by omega))
      | some rows => exact ⟨rows, rfl⟩
    obtain ⟨g', hg', hspec'⟩ := writeRows2_spec nxc nzc g rows
      (by
        intro r hr
        have := hin m (by omega) r
        rw [hrows] at this
        exact this (by simpa using hr))
    refine ⟨g', ?_, ?_⟩
    · unfold readViscosityStepFiles at hg ⊢
      rw [List.range_succ, List.foldlM_append, hg]
      simp only [ok_bind]
      show (match content m with
        | none => Except.error (Err.missingFile m)
        | some rows => writeRows2 nxc nzc g rows) >>= _ = _
      rw [hrows]
      show writeRows2 nxc nzc g rows >>= _ = _
      rw [hg']
      rfl
    · intro a b
      rw [hspec' a b, stepRows_succ, lastMention_append, hrows]
      cases hlm : lastMention rows a b with
      | some v => simp [hlm]
      | none => simp [hlm, hspec a b]

/-- The post-first-step loop of `_read_viscosity` on steps whose rank count
matches: it succeeds and each step's slice realizes last-write-wins over
that step's rows. -/
theorem readViscosityRest_spec (d : ViscDir) (nxc nzc nrank : Nat) (rest : List Nat)
    (hc : ∀ s ∈ rest, d.counts s = nrank)
    (hcont : ∀ s ∈ rest, ∀ r, r < nrank → d.content s r ≠ none)
    (hin : ∀ s ∈ rest, ∀ r, r < nrank →
      ∀ row ∈ (d.content s r).getD [], row.i < nxc ∧ row.k < nzc) :
    ∃ gs, readViscosityRest d nxc nzc nrank rest = .ok gs ∧
      gs.length = rest.length ∧
      ∀ idx s, rest[idx]? = some s →
        ∀ a b, (gs.getD idx (fun _ _ => 0)) a b =
          match lastMention (stepRows (d.content s) nrank) a b with
          | some v => v
          | none => 0 := by
  induction rest with
  | nil => exact ⟨[], rfl, rfl, by intro idx s hs; simp at hs⟩
  | cons s rest ih =>
    obtain ⟨gs, hgs, hlen, hspec⟩ := ih (fun q hq => hc q (by simp [hq]))
      (fun q hq => hcont q (by simp [hq])) (fun q hq => hin q (by simp [hq]))
    obtain ⟨g, hg, hgspec⟩ := readViscosityStepFiles_spec nxc nzc (d.content s) nrank
      (fun r hr => hcont s (by simp) r hr) (fun r hr => hin s (by simp) r hr)
    refine ⟨g :: gs, ?_, by simp [hlen], ?_⟩
    · rw [readViscosityRest, if_pos (hc s (by simp))]
      rw [hg]
      simp only [ok_bind]
      rw [hgs]
      rfl
    · intro idx s' hs' a b
      cases idx with
      | zero =>
        obtain rfl : s = s' := by simpa using hs'
        simpa using hgspec a b
      | succ n =>
        have hs'' : rest[n]? = some s' := by simpa using hs'
        simpa using hspec n s' hs'' a b

/-- C10: for every step read by the 2-D viscosity reader (rank files present
and their indices inside the cell grid, rank counts uniform), the resulting
cell-centered slice holds at cell `(a, b)` exactly the value paired with
`(a, b)` in the last row mentioning `(a, b)` across that step's rank files
in file-then-row read order, and exactly `0` if no row mentions the cell;
duplicate mentions are silently overwritten (the hypotheses allow them and
no error is raised), and the reader performs no duplicate validation. -/
theorem viscosity_last_write_wins (d : ViscDir) (s0 : Nat) (rest : List Nat)
    (nx nz : Nat)
    (hc : ∀ s ∈ rest, d.counts s = d.counts s0)
    (hcont : ∀ s ∈ s0 :: rest, ∀ r, r < d.counts s0 → d.content s r ≠ none)
    (hin : ∀ s ∈ s0 :: rest, ∀ r, r < d.counts s0 →
      ∀ row ∈ (d.content s r).getD [], row.i < nx - 1 ∧ row.k < nz - 1) :
    ∃ gs, readViscosity d (s0 :: rest) nx nz = .ok gs ∧
      gs.length = (s0 :: rest).length ∧
      ∀ idx s, (s0 :: rest)[idx]? = some s →
        ∀ a b, (gs.getD idx (fun _ _ => 0)) a b =
          match lastMention (stepRows (d.content s) (d.counts s0)) a b with
          | some v => v
          | none => 0 := by
  obtain ⟨g0, hg0, hg0spec⟩ := readViscosityStepFiles_spec (nx - 1) (nz - 1)
    (d.content s0) (d.counts s0)
    (fun r hr => hcont s0 (by simp) r hr) (fun r hr => hin s0 (by simp) r hr)
  obtain ⟨gs, hgs, hlen, hspec⟩ := readViscosityRest_spec d (nx - 1) (nz - 1)
    (d.counts s0) rest hc
    (fun q hq => hcont q (by simp [hq])) (fun q hq => hin q (by simp [hq]))
  refine ⟨g0 :: gs, ?_, by simp [hlen], ?_⟩
  · rw [readViscosity, hg0]
    simp only [ok_bind]
    rw [hgs]
    rfl
  · intro idx s hs a b
    cases idx with
    | zero =>
      obtain rfl : s0 = s := by simpa using hs
      simpa using hg0spec a b
    | succ n =>
      have hs' : rest[n]? = some s := by simpa using hs
      simpa using hspec n s hs' a b

/-- Witness for C10: the concrete directory whose step files mention cell
`(0, 0)` three times (values `1, 3` from rank 0, then `5` from rank 1) and
cell `(1, 0)` once — the theorem applied at it; in particular the last write
`5` wins at `(0, 0)` and unmentioned cells hold `0`. -/
theorem viscosity_last_write_wins_witness :
    (∃ gs, readViscosity exViscDir [0, 10] 3 2 = .ok gs ∧
      gs.length = ([0, 10] : List Nat).length ∧
      ∀ idx s, ([0, 10] : List Nat)[idx]? = some s →
        ∀ a b, (gs.getD idx (fun _ _ => 0)) a b =
          match lastMention (stepRows (exViscDir.content s) (exViscDir.counts 0)) a b with
          | some v => v
          | none => 0) ∧
    (∀ a b, (match lastMention (stepRows (exViscDir.content 0) (exViscDir.counts 0)) a b with
      | some v => (v : ℚ)
      | none => 0) =
        if a = 0 ∧ b = 0 then 5 else if a = 1 ∧ b = 0 then 7 else 0) := by
  constructor
  · exact viscosity_last_write_wins exViscDir 0 [10] 3 2
      (by intro s hs; rfl)
      (by
        intro s hs r hr
        have hr' : r < 2 := hr
        fin_cases hs <;> interval_cases r <;> decide)
      (by
        intro s hs r hr
        have hr' : r < 2 := hr
        fin_cases hs <;> interval_cases r <;> decide)
  · intro a b
    by_cases h00 : a = 0 ∧ b = 0
    · obtain ⟨rfl, rfl⟩ := h00
      decide
    · by_cases h10 : a = 1 ∧ b = 0
      · obtain ⟨rfl, rfl⟩ := h10
        decide
      · rw [if_neg h00, if_neg h10]
        have hrows : stepRows (exViscDir.content 0) (exViscDir.counts 0) =
            [⟨0, 0, (1 : ℚ)⟩, ⟨1, 0, 7⟩, ⟨0, 0, 3⟩, ⟨0, 0, 5⟩] := by decide
        have hnone : lastMention
            [⟨0, 0, (1 : ℚ)⟩, ⟨1, 0, 7⟩, ⟨0, 0, 3⟩, ⟨0, 0, 5⟩] a b = none := by
          simp only [lastMention]
          simp [if_neg h00, if_neg h10]
        rw [hrows, hnone]

/-! ### Claims C6 and C9: rank-count consistency and the swarm table -/

/-- Reading all rank files of one step succeeds when each is present,
producing exactly the contents in rank order. -/
theorem mapM_swarmContent (content : Nat → Option (List SwarmRec)) (l : List Nat)
    (h : ∀ r ∈ l, content r ≠ none) :
    l.mapM (fun r => (match content r with
      | none => Except.error (Err.missingFile r)
      | some rows => Except.ok rows : Except Err (List SwarmRec))) =
      Except.ok (l.map (fun r => (content r).getD [])) := by
  induction l with
  | nil => rfl
  | cons r rest ih =>
    rw [List.mapM_cons]
    cases hc : content r with
    | none => exact absurd hc (h r (by simp))
    | some rows =>
      rw [show (match some rows with
        | none => Except.error (Err.missingFile r)
        | some rows => (Except.ok rows : Except Err (List SwarmRec))) =
          Except.ok rows from rfl]
      rw [ok_bind, ih (fun q hq => h q (by simp [hq])), ok_bind]
      simp only [hc, Option.getD_some, List.map_cons]
      rfl

/-- The single-step swarm read on present rank files: one row per particle
per rank file, every row carrying the step's time and the step number. -/
theorem readSingleSwarm_spec (content : Nat → Option (List SwarmRec)) (step : Nat)
    (t : ℚ) (nrank : Nat) (hcont : ∀ r, r < nrank → content r ≠ none) :
    ∃ tbl, readSingleSwarm content step t nrank = .ok tbl ∧
      tbl.length = ((List.range nrank).map
        (fun r => ((content r).getD []).length)).sum ∧
      ∀ row ∈ tbl, row.step = step ∧ row.time = t := by
  have hparts := mapM_swarmContent content (List.range nrank)
    (fun r hr => hcont r (List.mem_range.mp hr))
  refine ⟨((List.range nrank).map (fun r => (content r).getD [])).flatten.map
    (fun p => { x := p.x, y := p.y, z := p.z, cc0 := p.cc0, time := t, step := step }),
    ?_, ?_, ?_⟩
  · unfold readSingleSwarm
    rw [hparts]
    rfl
  · rw [List.length_map, List.length_flatten, List.map_map]
    rfl
  · intro row hrow
    obtain ⟨p, _, rfl⟩ := List.mem_map.mp hrow
    exact ⟨rfl, rfl⟩

/-- The post-first-step swarm loop on steps whose rank count matches. -/
theorem readMd3dSwarmRest_spec (d : SwarmDir) (nrank : Nat) (pairs : List (Nat × ℚ))
    (hc : ∀ q ∈ pairs, d.scount q.1 = nrank)
    (hcont : ∀ q ∈ pairs, ∀ r, r < nrank → d.content q.1 r ≠ none) :
    ∃ tbls, readMd3dSwarmRest d nrank pairs = .ok tbls ∧
      tbls.length = pairs.length ∧
      ∀ (idx : Nat) (q : Nat × ℚ), pairs[idx]? = some q →
        ∃ tbl : List SwarmRow, tbls[idx]? = some tbl ∧
          tbl.length = ((List.range nrank).map
            (fun r => ((d.content q.1 r).getD []).length)).sum ∧
          ∀ row ∈ tbl, row.step = q.1 ∧ row.time = q.2 := by
  induction pairs with
  | nil => exact ⟨[], rfl, rfl, by intro idx q hq; simp at hq⟩
  | cons q pairs ih =>
    obtain ⟨tbls, htbls, hlen, hspec⟩ := ih (fun q' hq' => hc q' (by simp [hq']))
      (fun q' hq' => hcont q' (by simp [hq']))
    obtain ⟨tbl, htbl, htlen, htrows⟩ := readSingleSwarm_spec (d.content q.1) q.1 q.2
      nrank (fun r hr => hcont q (by simp) r hr)
    refine ⟨tbl :: tbls, ?_, by simp [hlen], ?_⟩
    · show readMd3dSwarmRest d nrank ((q.1, q.2) :: pairs) = _
      rw [readMd3dSwarmRest, if_pos (hc q (by simp))]
      rw [htbl]
      simp only [ok_bind]
      rw [htbls]
      rfl
    · intro idx q' hq'
      cases idx with
      | zero =>
        obtain rfl : q = q' := by simpa using hq'
        exact ⟨tbl, by simp, htlen, htrows⟩
      | succ n =>
        have hq'' : pairs[n]? = some q' := by simpa using hq'
        obtain ⟨tbl', h1, h2, h3⟩ := hspec n q' hq''
        exact ⟨tbl', by simpa using h1, h2, h3⟩

/-- The post-first-step swarm loop raises `InconsistentRankCount` at the
first step whose rank-file count differs from the count fixed at step 0,
before consulting that step's particle files. -/
theorem readMd3dSwarmRest_err (d : SwarmDir) (nrank : Nat) (pairs : List (Nat × ℚ))
    (N : Nat) (s : Nat) (t : ℚ) (hN : pairs[N]? = some (s, t))
    (hpre : ∀ i, i < N → ∀ q, pairs[i]? = some q →
      d.scount q.1 = nrank ∧ ∀ r, r < nrank → d.content q.1 r ≠ none)
    (hmis : d.scount s ≠ nrank) :
    readMd3dSwarmRest d nrank pairs = .error (.inconsistentRankCount (d.scount s) s) := by
  induction pairs generalizing N with
  | nil => simp at hN
  | cons q pairs ih =>
    cases N with
    | zero =>
      obtain rfl : q = (s, t) := by simpa using hN
      show readMd3dSwarmRest d nrank ((s, t) :: pairs) = _
      rw [readMd3dSwarmRest, if_neg hmis]
    | succ n =>
      obtain ⟨hc0, hcont0⟩ := hpre 0 (by omega) q (by simp)
      obtain ⟨tbl, htbl, -, -⟩ := readSingleSwarm_spec (d.content q.1) q.1 q.2
        nrank hcont0
      show readMd3dSwarmRest d nrank ((q.1, q.2) :: pairs) = _
      rw [readMd3dSwarmRest, if_pos hc0, htbl]
      simp only [ok_bind]
      rw [ih n (by simpa using hN)
        (fun i hi q' hq' => hpre (i + 1) (by omega) q' (by simpa using hq'))]
      rfl

/-- The post-first-step viscosity loop raises `InconsistentRankCount` at the
first step whose rank-file count differs from the count fixed at step 0,
before consulting that step's rank files. -/
theorem readViscosityRest_err (d : ViscDir) (nxc nzc nrank : Nat) (rest : List Nat)
    (N : Nat) (s : Nat) (hN : rest[N]? = some s)
    (hpre : ∀ i, i < N → ∀ q, rest[i]? = some q →
      d.counts q = nrank ∧ (∀ r, r < nrank → d.content q r ≠ none) ∧
      (∀ r, r < nrank → ∀ row ∈ (d.content q r).getD [], row.i < nxc ∧ row.k < nzc))
    (hmis : d.counts s ≠ nrank) :
    readViscosityRest d nxc nzc nrank rest =
      .error (.inconsistentRankCount (d.counts s) s) := by
  induction rest generalizing N with
  | nil => simp at hN
  | cons q rest ih =>
    cases N with
    | zero =>
      obtain rfl : q = s := by simpa using hN
      rw [readViscosityRest, if_neg hmis]
    | succ n =>
      obtain ⟨hc0, hcont0, hin0⟩ := hpre 0 (by omega) q (by simp)
      obtain ⟨g, hg, -⟩ := readViscosityStepFiles_spec nxc nzc (d.content q) nrank
        hcont0 hin0
      rw [readViscosityRest, if_pos hc0, hg]
      simp only [ok_bind]
      rw [ih n (by simpa using hN)
        (fun i hi q' hq' => hpre (i + 1) (by omega) q' (by simpa using hq'))]
      rfl

/-- C6: if some later step has a rank-file count different from the count
found at step 0 — prior steps being consistent and readable — both the
viscosity reader and the swarm reader raise the inconsistent-rank-count
error carrying that step and its count, before consulting that step's
files; and when every step has the step-0 count (all files readable),
neither reader raises it and both return a result. -/
theorem rank_count_consistency :
    (∀ (dv : ViscDir) (nx nz s0 : Nat) (rest : List Nat) (N s : Nat),
      rest[N]? = some s →
      (∀ i, i < N → ∀ q, rest[i]? = some q →
        dv.counts q = dv.counts s0 ∧ (∀ r, r < dv.counts s0 → dv.content q r ≠ none) ∧
        (∀ r, r < dv.counts s0 → ∀ row ∈ (dv.content q r).getD [],
          row.i < nx - 1 ∧ row.k < nz - 1)) →
      (∀ r, r < dv.counts s0 → dv.content s0 r ≠ none) →
      (∀ r, r < dv.counts s0 → ∀ row ∈ (dv.content s0 r).getD [],
        row.i < nx - 1 ∧ row.k < nz - 1) →
      dv.counts s ≠ dv.counts s0 →
      readViscosity dv (s0 :: rest) nx nz =
        .error (.inconsistentRankCount (dv.counts s) s)) ∧
    (∀ (dv : ViscDir) (nx nz s0 : Nat) (rest : List Nat),
      (∀ q ∈ s0 :: rest, dv.counts q = dv.counts s0) →
      (∀ q ∈ s0 :: rest, ∀ r, r < dv.counts s0 → dv.content q r ≠ none) →
      (∀ q ∈ s0 :: rest, ∀ r, r < dv.counts s0 → ∀ row ∈ (dv.content q r).getD [],
        row.i < nx - 1 ∧ row.k < nz - 1) →
      ∃ gs, readViscosity dv (s0 :: rest) nx nz = .ok gs) ∧
    (∀ (ds : SwarmDir) (ps : Params) (p M : Nat) (steps : List Nat) (times : List ℚ)
      (s0 : Nat) (rest : List Nat) (t0 : ℚ) (trest : List ℚ) (N s : Nat) (t : ℚ),
      readParametersMd3d ds.paramFile = .ok ps →
      getNatParam ps "print_step" = .ok p →
      getNatParam ps "stepMAX" = .ok M →
      readTimesA ds.markers p M = .ok (steps, times) →
      steps = s0 :: rest → times = t0 :: trest →
      (rest.zip trest)[N]? = some (s, t) →
      (∀ r, r < ds.scount s0 → ds.content s0 r ≠ none) →
      (∀ i, i < N → ∀ q, (rest.zip trest)[i]? = some q →
        ds.scount q.1 = ds.scount s0 ∧
        (∀ r, r < ds.scount s0 → ds.content q.1 r ≠ none)) →
      ds.scount s ≠ ds.scount s0 →
      readMd3dSwarm ds = .error (.inconsistentRankCount (ds.scount s) s)) ∧
    (∀ (ds : SwarmDir) (ps : Params) (p M : Nat) (steps : List Nat) (times : List ℚ)
      (s0 : Nat) (rest : List Nat) (t0 : ℚ) (trest : List ℚ),
      readParametersMd3d ds.paramFile = .ok ps →
      getNatParam ps "print_step" = .ok p →
      getNatParam ps "stepMAX" = .ok M →
      readTimesA ds.markers p M = .ok (steps, times) →
      steps = s0 :: rest → times = t0 :: trest →
      (∀ q ∈ rest.zip trest, ds.scount q.1 = ds.scount s0) →
      (∀ r, r < ds.scount s0 → ds.content s0 r ≠ none) →
      (∀ q ∈ rest.zip trest, ∀ r, r < ds.scount s0 → ds.content q.1 r ≠ none) →
      ∃ tbl, readMd3dSwarm ds = .ok tbl) := by
  refine ⟨?_, ?_, ?_, ?_⟩
  · intro dv nx nz s0 rest N s hN hpre hcont0 hin0 hmis
    obtain ⟨g0, hg0, -⟩ := readViscosityStepFiles_spec (nx - 1) (nz - 1)
      (dv.content s0) (dv.counts s0) hcont0 hin0
    rw [readViscosity, hg0]
    simp only [ok_bind]
    rw [readViscosityRest_err dv (nx - 1) (nz - 1) (dv.counts s0) rest N s hN hpre hmis]
    rfl
  · intro dv nx nz s0 rest hc hcont hin
    obtain ⟨g0, hg0, -⟩ := readViscosityStepFiles_spec (nx - 1) (nz - 1)
      (dv.content s0) (dv.counts s0)
      (fun r hr => hcont s0 (by simp) r hr) (fun r hr => hin s0 (by simp) r hr)
    obtain ⟨gs, hgs, -, -⟩ := readViscosityRest_spec dv (nx - 1) (nz - 1)
      (dv.counts s0) rest (fun q hq => hc q (by simp [hq]))
      (fun q hq => hcont q (by simp [hq])) (fun q hq => hin q (by simp [hq]))
    refine ⟨g0 :: gs, ?_⟩
    rw [readViscosity, hg0]
    simp only [ok_bind]
    rw [hgs]
    rfl
  · intro ds ps p M steps times s0 rest t0 trest N s t hps hp hM ht hsteps htimes hN
      hcont0 hpre hmis
    subst hsteps
    subst htimes
    unfold readMd3dSwarm
    rw [hps]
    simp only [ok_bind]
    rw [hp]
    simp only [ok_bind]
    rw [hM]
    simp only [ok_bind]
    rw [ht]
    simp only [ok_bind]
    rw [List.zip_cons_cons]
    obtain ⟨tbl0, htbl0, -, -⟩ := readSingleSwarm_spec (ds.content s0) s0 t0
      (ds.scount s0) hcont0
    show (readSingleSwarm (ds.content s0) s0 t0 (ds.scount s0) >>= fun tbl0 =>
      readMd3dSwarmRest ds (ds.scount s0) (rest.zip trest) >>= fun tbls =>
        Except.ok ((tbl0 :: tbls).flatten)) = _
    rw [htbl0]
    simp only [ok_bind]
    rw [readMd3dSwarmRest_err ds (ds.scount s0) (rest.zip trest) N s t hN hpre hmis]
    rfl
  · intro ds ps p M steps times s0 rest t0 trest hps hp hM ht hsteps htimes hc hcont0 hcont
    subst hsteps
    subst htimes
    unfold readMd3dSwarm
    rw [hps]
    simp only [ok_bind]
    rw [hp]
    simp only [ok_bind]
    rw [hM]
    simp only [ok_bind]
    rw [ht]
    simp only [ok_bind]
    rw [List.zip_cons_cons]
    obtain ⟨tbl0, htbl0, -, -⟩ := readSingleSwarm_spec (ds.content s0) s0 t0
      (ds.scount s0) hcont0
    obtain ⟨tbls, htbls, -, -⟩ := readMd3dSwarmRest_spec ds (ds.scount s0)
      (rest.zip trest) hc hcont
    refine ⟨(tbl0 :: tbls).flatten, ?_⟩
    show (readSingleSwarm (ds.content s0) s0 t0 (ds.scount s0) >>= fun tbl0 =>
      readMd3dSwarmRest ds (ds.scount s0) (rest.zip trest) >>= fun tbls =>
        Except.ok ((tbl0 :: tbls).flatten)) = _
    rw [htbl0]
    simp only [ok_bind]
    rw [htbls]
    rfl

/-- Witness for C6: with 2 rank files at step 0 and 3 at step 10 both
readers raise `InconsistentRankCount 3` at step 10; with 2 rank files at
both steps both readers return a result. -/
theorem rank_count_consistency_witness :
    readViscosity exViscDirBad [0, 10] 3 2 = .error (.inconsistentRankCount 3 10) ∧
    (∃ gs, readViscosity exViscDir [0, 10] 3 2 = .ok gs) ∧
    readMd3dSwarm exSwarmDirBad = .error (.inconsistentRankCount 3 10) ∧
    (∃ tbl, readMd3dSwarm exSwarmDir = .ok tbl) := by
  obtain ⟨ha, hb, hcthm, hdthm⟩ := rank_count_consistency
  have hpm : (readParametersMd3d exParamMd3d).map
      (fun ps => (getNatParam ps "print_step", getNatParam ps "stepMAX")) =
      .ok (.ok 10, .ok 10) := by decide
  obtain ⟨ps, hps, hp, hM⟩ : ∃ ps, readParametersMd3d exParamMd3d = .ok ps ∧
      getNatParam ps "print_step" = .ok 10 ∧ getNatParam ps "stepMAX" = .ok 10 := by
    cases hps : readParametersMd3d exParamMd3d with
    | error e => rw [hps] at hpm; exact Except.noConfusion hpm
    | ok ps =>
      rw [hps] at hpm
      have hpair := Except.ok.inj hpm
      exact ⟨ps, rfl, congrArg Prod.fst hpair, congrArg Prod.snd hpair⟩
  have htimes : readTimesA exSwarmDir.markers 10 10 = .ok ([0, 10], [1, 2]) := by
    have hcands : candidateSteps 10 10 = [0, 10] := by decide
    simp only [readTimesA, readTimesWith, hcands]
    norm_num [readTimesLoop, parseTimeA, exSwarmDir, markerLayoutA, markerLayoutA2, tokNum]
  refine ⟨?_, ?_, ?_, ?_⟩
  · exact ha exViscDirBad 3 2 0 [10] 0 10 (by decide)
      (by intro i hi; omega)
      (by intro r hr; have hr' : r < 2 := hr; interval_cases r <;> decide)
      (by intro r hr; have hr' : r < 2 := hr; interval_cases r <;> decide)
      (by decide)
  · exact hb exViscDir 3 2 0 [10]
      (by intro q hq; rfl)
      (by
        intro q hq r hr
        have hr' : r < 2 := hr
        fin_cases hq <;> interval_cases r <;> decide)
      (by
        intro q hq r hr
        have hr' : r < 2 := hr
        fin_cases hq <;> interval_cases r <;> decide)
  · exact hcthm exSwarmDirBad ps 10 10 [0, 10] [1, 2] 0 [10] 1 [2] 0 10 2
      hps hp hM htimes rfl rfl (by decide)
      (by intro r hr; have hr' : r < 2 := hr; interval_cases r <;> decide)
      (by intro i hi; omega)
      (by decide)
  · exact hdthm exSwarmDir ps 10 10 [0, 10] [1, 2] 0 [10] 1 [2]
      hps hp hM htimes rfl rfl
      (by intro q hq; fin_cases hq; rfl)
      (by intro r hr; have hr' : r < 2 := hr; interval_cases r <;> decide)
      (by
        intro q hq r hr
        have hr' : r < 2 := hr
        fin_cases hq
        interval_cases r <;> decide)

/-- Indexing a zip from its components. -/
theorem zip_getElem?_of (l : List Nat) (l' : List ℚ) (i : Nat) (a : Nat) (b : ℚ)
    (h1 : l[i]? = some a) (h2 : l'[i]? = some b) :
    (l.zip l')[i]? = some (a, b) := by
  induction l generalizing l' i with
  | nil => simp at h1
  | cons x xs ih =>
    cases l' with
    | nil => simp at h2
    | cons y ys =>
      cases i with
      | zero => simp_all
      | succ n =>
        rw [List.zip_cons_cons, List.getElem?_cons_succ]
        exact ih ys n (by simpa using h1) (by simpa using h2)

/-- Components of an indexed zip entry. -/
theorem zip_getElem?_to (l : List Nat) (l' : List ℚ) (j : Nat) (q : Nat × ℚ)
    (h : (l.zip l')[j]? = some q) : l[j]? = some q.1 ∧ l'[j]? = some q.2 := by
  induction l generalizing l' j with
  | nil => simp at h
  | cons x xs ih =>
    cases l' with
    | nil => simp at h
    | cons y ys =>
      cases j with
      | zero =>
        obtain rfl : (x, y) = q := by simpa using h
        simp
      | succ n =>
        rw [List.zip_cons_cons, List.getElem?_cons_succ] at h
        simpa using ih ys n h

/-- Steps listed by a successful `_read_times` run: `print_step` is nonzero,
steps and times are equally many, and the step at position `i` is
`i * print_step`. -/
theorem readTimesA_steps (markers : Nat → Option MarkerFile) (p M : Nat)
    (steps : List Nat) (times : List ℚ)
    (ht : readTimesA markers p M = .ok (steps, times)) :
    p ≠ 0 ∧ steps.length = times.length ∧
    ∀ i s, steps[i]? = some s → s = i * p := by
  unfold readTimesA readTimesWith at ht
  by_cases hp0 : p = 0
  · rw [if_pos hp0] at ht
    exact Except.noConfusion ht
  rw [if_neg hp0] at ht
  cases hl : readTimesLoop (fun f => parseTimeA f.ws) markers (candidateSteps p M) with
  | error e => rw [hl] at ht; exact Except.noConfusion ht
  | ok pair =>
    rw [hl] at ht
    simp only [ok_bind] at ht
    have hss : steps = pair.1 := (congrArg Prod.fst (Except.ok.inj ht)).symm
    have hts : times = pair.2.map (fun t => (1 / 10 ^ 6 : ℚ) * t) :=
      (congrArg Prod.snd (Except.ok.inj ht)).symm
    obtain ⟨hlen, htake, -, -⟩ :=
      readTimesLoop_spec (fun f => parseTimeA f.ws) markers (candidateSteps p M)
        pair.1 pair.2 (by rw [hl])
    refine ⟨hp0, by rw [hss, hts]; simp [hlen], ?_⟩
    intro i s hi
    rw [hss] at hi
    have hi' : (candidateSteps p M)[i]? = some s := by
      rw [htake] at hi
      rw [List.getElem?_take] at hi
      by_cases hlt : i < pair.1.length
      · rwa [if_pos hlt] at hi
      · rw [if_neg hlt] at hi
        exact Option.noConfusion hi
    have hibound : i < (candidateSteps p M).length := by
      by_contra hge
      rw [List.getElem?_eq_none (by omega)] at hi'
      exact Option.noConfusion hi'
    have := candidateSteps_getElem? p M i hibound
    rw [this] at hi'
    exact (Option.some.inj hi').symm

/-- Counting and tagging rows across concatenated per-step segments: if
segment `j` consists of rows tagged with key `P[j]` and has the prescribed
size, and position `i` is the only one whose key step is `s`, then the rows
with step `s` in the concatenation are exactly segment `i`'s and they all
carry time `P[i].2`. -/
theorem segments_filter_spec (segs : List (List SwarmRow)) (P : List (Nat × ℚ))
    (cnt : Nat → Nat)
    (hlen : segs.length = P.length)
    (hseg : ∀ (j : Nat) (sg : List SwarmRow) (q : Nat × ℚ),
      segs[j]? = some sg → P[j]? = some q →
      (∀ row ∈ sg, row.step = q.1 ∧ row.time = q.2) ∧ sg.length = cnt q.1)
    (i : Nat) (s : Nat) (t : ℚ) (hP : P[i]? = some (s, t))
    (huniq : ∀ j q, P[j]? = some q → q.1 = s → j = i) :
    (segs.flatten.filter (fun row => row.step = s)).length = cnt s ∧
    (∀ row ∈ segs.flatten, row.step = s → row.time = t) := by
  induction segs generalizing P i with
  | nil =>
    obtain rfl : P = [] := by
      cases P with
      | nil => rfl
      | cons a b => simp at hlen
    simp at hP
  | cons sg segs ih =>
    obtain ⟨q0, P', rfl⟩ : ∃ q0 P', P = q0 :: P' := by
      cases P with
      | nil => simp at hlen
      | cons a b => exact ⟨a, b, rfl⟩
    have h0 := hseg 0 sg q0 (by simp) (by simp)
    rw [List.flatten_cons, List.filter_append]
    cases i with
    | zero =>
      obtain rfl : q0 = (s, t) := by simpa using hP
      have hfs : sg.filter (fun row => row.step = s) = sg := by
        apply List.filter_eq_self.mpr
        intro row hrow
        simp [(h0.1 row hrow).1]
      have hrest : ∀ row ∈ segs.flatten, ¬row.step = s := by
        intro row hrow
        rw [List.mem_flatten] at hrow
        obtain ⟨sg', hsg', hrow'⟩ := hrow
        obtain ⟨j, hj, rfl⟩ := List.getElem_of_mem hsg'
        have hjP : j < P'.length := by
          have := hlen
          simp only [List.length_cons] at this
          omega
        have hq := hseg (j + 1) segs[j] P'[j] (by simp [List.getElem?_eq_getElem hj])
          (by simp [List.getElem?_eq_getElem hjP])
        have hne : P'[j].1 ≠ s := by
          intro hcontra
          have := huniq (j + 1) P'[j] (by simp [List.getElem?_eq_getElem hjP]) hcontra
          omega
        rw [(hq.1 row hrow').1]
        exact hne
      have hfr : segs.flatten.filter (fun row => row.step = s) = [] := by
        apply List.filter_eq_nil_iff.mpr
        intro row hrow
        simp [hrest row hrow]
      constructor
      · rw [hfs, hfr, List.length_append, List.length_nil, h0.2]
        rfl
      · intro row hrow hstep
        rw [List.mem_append] at hrow
        rcases hrow with hrow | hrow
        · exact (h0.1 row hrow).2
        · exact absurd hstep (hrest row hrow)
    | succ n =>
      have hq0ne : q0.1 ≠ s := by
        intro hcontra
        have := huniq 0 q0 (by simp) hcontra
        omega
      have hfs : sg.filter (fun row => row.step = s) = [] := by
        apply List.filter_eq_nil_iff.mpr
        intro row hrow
        simp [(h0.1 row hrow).1, hq0ne]
      have hrec := ih P' (by simpa using hlen)
        (fun j sg' q hsg' hq =>
          hseg (j + 1) sg' q (by simpa using hsg') (by simpa using hq))
        n (by simpa using hP)
        (fun j q hq hqs => by
          have := huniq (j + 1) q (by simpa using hq) hqs
          omega)
      constructor
      · rw [hfs, List.length_append, List.length_nil, hrec.1]
        omega
      · intro row hrow hstep
        rw [List.mem_append] at hrow
        rcases hrow with hrow | hrow
        · exact absurd hstep (by simp [(h0.1 row hrow).1, hq0ne])
        · exact hrec.2 row hrow hstep

/-- C9: for every resolved step the swarm reader produces exactly one row
per particle per rank file — the table rows tagged with a step number are
exactly as many as the sum of the per-rank row counts of that step — and
every row of that step carries the step's resolved time as its `time` value
and the step number as its index. -/
theorem swarm_rows_per_step
    (ds : SwarmDir) (ps : Params) (p M : Nat) (steps : List Nat) (times : List ℚ)
    (s0 : Nat) (rest : List Nat) (t0 : ℚ) (trest : List ℚ)
    (hps : readParametersMd3d ds.paramFile = .ok ps)
    (hp : getNatParam ps "print_step" = .ok p)
    (hM : getNatParam ps "stepMAX" = .ok M)
    (ht : readTimesA ds.markers p M = .ok (steps, times))
    (hsteps : steps = s0 :: rest) (htimes : times = t0 :: trest)
    (hc : ∀ q ∈ rest.zip trest, ds.scount q.1 = ds.scount s0)
    (hcont0 : ∀ r, r < ds.scount s0 → ds.content s0 r ≠ none)
    (hcont : ∀ q ∈ rest.zip trest, ∀ r, r < ds.scount s0 → ds.content q.1 r ≠ none) :
    ∃ tbl, readMd3dSwarm ds = .ok tbl ∧
      ∀ (i : Nat) (s : Nat) (t : ℚ), steps[i]? = some s → times[i]? = some t →
        (tbl.filter (fun row => row.step = s)).length =
          ((List.range (ds.scount s0)).map
            (fun r => ((ds.content s r).getD []).length)).sum ∧
        (∀ row ∈ tbl, row.step = s → row.time = t) := by
  obtain ⟨hpne, hlen, hstep_eq⟩ := readTimesA_steps ds.markers p M steps times ht
  subst hsteps
  subst htimes
  obtain ⟨tbl0, htbl0, htbl0len, htbl0rows⟩ := readSingleSwarm_spec (ds.content s0)
    s0 t0 (ds.scount s0) hcont0
  obtain ⟨tbls, htbls, htblslen, htblsspec⟩ := readMd3dSwarmRest_spec ds
    (ds.scount s0) (rest.zip trest) hc hcont
  refine ⟨(tbl0 :: tbls).flatten, ?_, ?_⟩
  · unfold readMd3dSwarm
    rw [hps]
    simp only [ok_bind]
    rw [hp]
    simp only [ok_bind]
    rw [hM]
    simp only [ok_bind]
    rw [ht]
    simp only [ok_bind]
    rw [List.zip_cons_cons]
    show (readSingleSwarm (ds.content s0) s0 t0 (ds.scount s0) >>= fun tbl0 =>
      readMd3dSwarmRest ds (ds.scount s0) (rest.zip trest) >>= fun tbls =>
        Except.ok ((tbl0 :: tbls).flatten)) = _
    rw [htbl0]
    simp only [ok_bind]
    rw [htbls]
    rfl
  · intro i s t his hit
    have hP : ((s0, t0) :: rest.zip trest)[i]? = some (s, t) := by
      have := zip_getElem?_of (s0 :: rest) (t0 :: trest) i s t his hit
      rwa [List.zip_cons_cons] at this
    refine segments_filter_spec (tbl0 :: tbls) ((s0, t0) :: rest.zip trest)
      (fun st => ((List.range (ds.scount s0)).map
        (fun r => ((ds.content st r).getD []).length)).sum)
      (by simp [htblslen]) ?_ i s t hP ?_
    · intro j sg q hsg hq
      cases j with
      | zero =>
        obtain rfl : tbl0 = sg := by simpa using hsg
        obtain rfl : (s0, t0) = q := by simpa using hq
        exact ⟨fun row hrow => htbl0rows row hrow, htbl0len⟩
      | succ n =>
        have hsg' : tbls[n]? = some sg := by simpa using hsg
        have hq' : (rest.zip trest)[n]? = some q := by simpa using hq
        obtain ⟨tbl', htbl', hlen', hrows'⟩ := htblsspec n q hq'
        obtain rfl : tbl' = sg := by
          rw [htbl'] at hsg'
          exact Option.some.inj hsg'
        exact ⟨fun row hrow => hrows' row hrow, hlen'⟩
    · intro j q hq hqs
      have hj : ((s0 :: rest).zip (t0 :: trest))[j]? = some q := by
        rwa [List.zip_cons_cons]
      have hcomp := zip_getElem?_to (s0 :: rest) (t0 :: trest) j q hj
      have h1 : q.1 = j * p := hstep_eq j q.1 hcomp.1
      have h2 : s = i * p := hstep_eq i s his
      rw [hqs] at h1
      have hmul : j * p = i * p := by omega
      exact Nat.eq_of_mul_eq_mul_right (Nat.pos_of_ne_zero hpne) hmul

/-- Witness for C9: the directory with 2 ranks × 2 steps, rank 0
contributing 3 particles and rank 1 contributing 2 — each step's filtered
row count is the per-rank sum `3 + 2 = 5` and every row of a step carries
the step's resolved time. -/
theorem swarm_rows_per_step_witness :
    (∃ tbl, readMd3dSwarm exSwarmDir = .ok tbl ∧
      ∀ (i : Nat) (s : Nat) (t : ℚ),
        ([0, 10] : List Nat)[i]? = some s → ([1, 2] : List ℚ)[i]? = some t →
          (tbl.filter (fun row => row.step = s)).length =
            ((List.range (exSwarmDir.scount 0)).map
              (fun r => ((exSwarmDir.content s r).getD []).length)).sum ∧
          (∀ row ∈ tbl, row.step = s → row.time = t)) ∧
    ((List.range (exSwarmDir.scount 0)).map
      (fun r => ((exSwarmDir.content 0 r).getD []).length)).sum = 3 + 2 := by
  have hpm : (readParametersMd3d exParamMd3d).map
      (fun ps => (getNatParam ps "print_step", getNatParam ps "stepMAX")) =
      .ok (.ok 10, .ok 10) := by decide
  obtain ⟨ps, hps, hp, hM⟩ : ∃ ps, readParametersMd3d exParamMd3d = .ok ps ∧
      getNatParam ps "print_step" = .ok 10 ∧ getNatParam ps "stepMAX" = .ok 10 := by
    cases hps : readParametersMd3d exParamMd3d with
    | error e => rw [hps] at hpm; exact Except.noConfusion hpm
    | ok ps =>
      rw [hps] at hpm
      have hpair := Except.ok.inj hpm
      exact ⟨ps, rfl, congrArg Prod.fst hpair, congrArg Prod.snd hpair⟩
  have htimes : readTimesA exSwarmDir.markers 10 10 = .ok ([0, 10], [1, 2]) := by
    have hcands : candidateSteps 10 10 = [0, 10] := by decide
    simp only [readTimesA, readTimesWith, hcands]
    norm_num [readTimesLoop, parseTimeA, exSwarmDir, markerLayoutA, markerLayoutA2, tokNum]
  refine ⟨?_, by decide⟩
  exact swarm_rows_per_step exSwarmDir ps 10 10 [0, 10] [1, 2] 0 [10] 1 [2]
    hps hp hM htimes rfl rfl
    (by intro q hq; fin_cases hq; rfl)
    (by intro r hr; have hr' : r < 2 := hr; interval_cases r <;> decide)
    (by
      intro q hq r hr
      have hr' : r < 2 := hr
      fin_cases hq
      interval_cases r <;> decide)

end ModellingEarth
